import Mathlib

/-!
# Response-body transport and retry orchestration of the HTTP client (`http_io.go`)

A shallow embedding of `readBodyCopy`, `copyFixedSize`, `copyBodyChunked`,
`HostClient.DoCopy`, `HostClient.doCopy`, `HostClient.doNonNilReqRespCopy`,
`Response.doBodyCopy` and `Response.BodyLength`, followed by theorems about them.

Conventions of the embedding

* A Go `error` is an `Option Err`; `none` is `nil`.
* Go `int` is `Int`; the values that occur (byte counts, attempt counters) stay far
  from the 64-bit limits.
* A byte is a natural number below 256.
* The `*bufio.Reader` and the `io.Writer` are explicit states (`Reader`, `Writer`) that the
  functions pass along and return.
* Loops are recursive functions over a step budget that is computed from the state and is
  always large enough; a function returns `none` only if the budget runs out, and the
  totality lemmas show that this does not happen.
-/

namespace Fasthttp

/-! ## Errors -/

/-- The error values that the code tests for or produces; `other` stands for any further
error value of the environment (an I/O failure, a timeout, a header parse error). -/
inductive Err where
  | EOF
  | ErrUnexpectedEOF
  | ErrNoCRLF
  | ErrChunkSize
  | ErrBodyTooLarge
  | ErrConnectionClosed
  | ErrHostClientRedirectToDifferentScheme
  | other (code : Nat)
  deriving DecidableEq, Repr

abbrev Byte := Nat

/-- The constant `strCRLF`. -/
def strCRLF : List Byte := [13, 10]

/-- The constant `strHTTPS`. -/
def strHTTPS : List Byte := [104, 116, 116, 112, 115]

/-! ## The byte source and the sink -/

/-- State of a `*bufio.Reader` over a connection.

* `data`: the bytes the connection still delivers, in order;
* `caps`: for each coming call of `Read`, the most bytes that call hands over (a call may
  return fewer bytes than asked for, also none); once `caps` is used up a call hands over
  all that is asked for and available;
* `fin`: the error every call reports once `data` is exhausted (`io.EOF` for a closed
  connection);
* `asked`: a record of the calls of `Read` made so far, as pairs (bytes asked for, bytes
  handed over). It is only written, never read. -/
structure Reader where
  data : List Byte
  caps : List Nat
  fin : Err
  asked : List (Nat × Nat)
  deriving DecidableEq, Repr

/-- A reader that hands over what is asked for, holding `data` and then reporting `fin`. -/
def Reader.ofData (data : List Byte) (fin : Err) : Reader :=
  { data := data, caps := [], fin := fin, asked := [] }

/-- The most bytes the next call of `Read` hands over when asked for `k`. -/
def Reader.grant (r : Reader) (k : Nat) : Nat :=
  match r.caps with
  | [] => k
  | c :: _ => min k c

/-- The call `r.Read(p)` with `len(p) = k`: the bytes stored into `p[:n]`, the error, and
the reader afterwards. A call that hands over bytes reports no error. (The code never
passes an empty `p`.) -/
def Reader.Read (r : Reader) (k : Nat) : List Byte × Option Err × Reader :=
  match r.data with
  | [] => ([], some r.fin, { r with asked := r.asked ++ [(k, 0)] })
  | _ :: _ =>
    let j := r.grant k
    (r.data.take j, none,
      { r with data := r.data.drop j, caps := r.caps.tail,
               asked := r.asked ++ [(k, (r.data.take j).length)] })

/-- State of an `io.Writer`.

* `out`: the bytes accepted so far;
* `room`: how many more bytes the sink accepts (`none`: no limit);
* `werr`: the error `Write` reports when the data does not fit. -/
structure Writer where
  out : List Byte
  room : Option Nat
  werr : Err
  deriving DecidableEq, Repr

/-- A sink without limit that has accepted nothing yet. -/
def Writer.unbounded : Writer :=
  { out := [], room := none, werr := Err.other 0 }

/-- The call `w.Write(p)`: the number of bytes accepted, the error, the writer
afterwards. A write that does not fit accepts the bytes there is room for and fails. -/
def Writer.Write (w : Writer) (p : List Byte) : Int × Option Err × Writer :=
  match w.room with
  | none => (p.length, none, { w with out := w.out ++ p })
  | some c =>
    if p.length ≤ c then
      (p.length, none, { w with out := w.out ++ p, room := some (c - p.length) })
    else
      (c, some w.werr, { w with out := w.out ++ p.take c, room := some 0 })

/-! ## The body transport engine -/

/-- What a copy returns, with the reader and the writer as it leaves them. -/
structure CopyResult where
  cnt : Int
  err : Option Err
  r : Reader
  w : Writer
  deriving DecidableEq, Repr

/-- The loop of `copyFixedSize`; `cnt` and `err` are the function-level variables of the
same names (the `err` of `w.Write` is a new variable of the loop body and does not reach
the final `return cnt, err`). -/
def copyFixedSizeLoop : Nat → Reader → Writer → Int → Int → Option Err → Option CopyResult
  | 0, _, _, _, _, _ => none
  | fuel + 1, r, w, n, cnt, err =>
    let left := n - cnt
    if left ≤ 0 then
      some { cnt := cnt, err := err, r := r, w := w }
    else
      let left := if left > 4096 then 4096 else left
      match r.Read left.toNat with
      | (p, rerr, r1) =>
        let nn : Int := p.length
        if nn ≤ 0 ∧ rerr ≠ none then
          some { cnt := cnt,
                 err := if rerr = some Err.EOF then some Err.ErrUnexpectedEOF else rerr,
                 r := r1, w := w }
        else
          match w.Write p with
          | (wn, werr, w1) =>
            if werr ≠ none then
              some { cnt := cnt, err := werr, r := r1, w := w1 }
            else
              copyFixedSizeLoop fuel r1 w1 n (cnt + wn) rerr

/-- Steps after which the loop of `copyFixedSize` has certainly ended: every round that
goes on uses up an entry of `caps` or a byte of `data`. -/
def Reader.budget (r : Reader) : Nat := r.data.length + r.caps.length + 1

/-- The function `copyFixedSize(r, w, n)`. -/
def copyFixedSize (r : Reader) (w : Writer) (n : Int) : Option CopyResult :=
  copyFixedSizeLoop r.budget r w n 0 none

/-- Value of an ASCII hexadecimal digit. -/
def hexDigit (b : Byte) : Option Nat :=
  if 48 ≤ b ∧ b ≤ 57 then some (b - 48)
  else if 97 ≤ b ∧ b ≤ 102 then some (b - 87)
  else if 65 ≤ b ∧ b ≤ 70 then some (b - 55)
  else none

/-- Reads the longest run of hexadecimal digits at the head of the input: the value read
so far, the number of digits read, and the input that remains. -/
def readHexInt : List Byte → Nat → Nat → Nat × Nat × List Byte
  | [], acc, i => (acc, i, [])
  | b :: bs, acc, i =>
    match hexDigit b with
    | some d => readHexInt bs (acc * 16 + d) (i + 1)
    | none => (acc, i, b :: bs)

/-- Modelled from the spec: `parseChunkSize` is defined outside `http_io.go`. The spec
gives its contract: it parses one chunk-size line `<hex-size>\r\n` and returns the numeric
size of the next chunk, or an error if the line is malformed or the stream ends
prematurely. It reads byte by byte, so it is independent of `caps` and makes no call of
`Read`. -/
def parseChunkSize (r : Reader) : Int × Option Err × Reader :=
  match readHexInt r.data 0 0 with
  | (_, 0, rest) => (-1, some Err.ErrChunkSize, { r with data := rest })
  | (n, _ + 1, 13 :: 10 :: rest) => (n, none, { r with data := rest })
  | (_, _ + 1, rest) => (-1, some Err.ErrChunkSize, { r with data := rest })

/-- The loop of `copyBodyChunked`; `nn` is the named result, `buf` the two-byte buffer
that is allocated once and reused for every chunk boundary. -/
def copyBodyChunkedLoop : Nat → Reader → Writer → Int → List Byte → Option CopyResult
  | 0, _, _, _, _ => none
  | fuel + 1, r, w, nn, buf =>
    match parseChunkSize r with
    | (_, some e, r1) => some { cnt := nn, err := some e, r := r1, w := w }
    | (chunkSize, none, r1) =>
      match copyFixedSize r1 w chunkSize with
      | none => none
      | some c =>
        if c.err ≠ none then
          some { cnt := nn + c.cnt, err := c.err, r := c.r, w := c.w }
        else
          let nn := nn + c.cnt
          match c.r.Read buf.length with
          | (p, rerr, r3) =>
            let buf := p ++ buf.drop p.length
            if rerr ≠ none then
              some { cnt := nn, err := rerr, r := r3, w := c.w }
            else if buf ≠ strCRLF then
              some { cnt := nn, err := some Err.ErrNoCRLF, r := r3, w := c.w }
            else if chunkSize = 0 then
              some { cnt := nn, err := none, r := r3, w := c.w }
            else
              copyBodyChunkedLoop fuel r3 c.w nn buf

/-- The function `copyBodyChunked(r, w)`. Every round that goes on has consumed a
chunk-size line, so `len(data) + 1` rounds are enough. -/
def copyBodyChunked (r : Reader) (w : Writer) : Option CopyResult :=
  copyBodyChunkedLoop (r.data.length + 1) r w 0 (List.replicate strCRLF.length 0)

/-- The function `readBodyCopy(r, contentLength, w)`; the constant is
`math.MaxInt64 / 2`. -/
def readBodyCopy (r : Reader) (contentLength : Int) (w : Writer) : Option CopyResult :=
  if contentLength = -1 then
    copyBodyChunked r w
  else
    let contentLength := if contentLength < 0 then 4611686018427387903 else contentLength
    copyFixedSize r w contentLength

/-! ## Requests, responses, the client -/

/-- The part of a request URI the exchange looks at. -/
structure URI where
  scheme : List Byte
  DisablePathNormalizing : Bool
  deriving DecidableEq, Repr

/-- The part of a request header the exchange looks at. -/
structure RequestHeader where
  method : List Byte
  userAgent : List Byte
  connectionClose : Bool
  deriving DecidableEq, Repr

/-- A request: header, URI, whether the body is a live stream (`bodyStream != nil`), and
the per-call timeout. -/
structure Request where
  Header : RequestHeader
  uri : URI
  bodyStream : Bool
  timeout : Int
  deriving DecidableEq, Repr

def RequestHeader.IsHead (h : RequestHeader) : Bool := h.method = [72, 69, 65, 68]

def RequestHeader.UserAgent (h : RequestHeader) : List Byte := h.userAgent

def RequestHeader.ResetConnectionClose (h : RequestHeader) : RequestHeader :=
  if h.connectionClose then { h with connectionClose := false } else h

def Request.IsBodyStream (req : Request) : Bool := req.bodyStream

def Request.ConnectionClose (req : Request) : Bool := req.Header.connectionClose

def Request.SetConnectionClose (req : Request) : Request :=
  { req with Header := { req.Header with connectionClose := true } }

/-- The part of a response header the exchange looks at. -/
structure ResponseHeader where
  statusCode : Int
  contentLength : Int
  connectionClose : Bool
  disableNormalizing : Bool
  deriving DecidableEq, Repr

/-- A response: header, the skip-body flag, the body-length counter. -/
structure Response where
  Header : ResponseHeader
  SkipBody : Bool
  bodyLength : Int
  deriving DecidableEq, Repr

def ResponseHeader.StatusCode (h : ResponseHeader) : Int := h.statusCode

def ResponseHeader.ContentLength (h : ResponseHeader) : Int := h.contentLength

def ResponseHeader.DisableNormalizing (h : ResponseHeader) : ResponseHeader :=
  { h with disableNormalizing := true }

def Response.ConnectionClose (resp : Response) : Bool := resp.Header.connectionClose

/-- The method `Response.BodyLength`. -/
def Response.BodyLength (resp : Response) : Int := resp.bodyLength

/-- The constant `StatusContinue`. -/
def StatusContinue : Int := 100

/-- The configuration fields of `HostClient` that the code reads. `RetryIf` is `none` for
a nil function value. -/
structure HostClient where
  MaxIdemponentCallAttempts : Int
  RetryIf : Option (Request → Bool)
  IsTLS : Bool
  DisablePathNormalizing : Bool
  DisableHeaderNamesNormalizing : Bool
  WriteTimeout : Int
  ReadTimeout : Int
  MaxConnDuration : Int
  MaxResponseBodySize : Int

/-- Declarations of the package that `http_io.go` uses and that are defined in other
files; they are parameters of the embedding.

* `DefaultMaxIdemponentCallAttempts`: the constant of that name;
* `isIdempotent`: the built-in idempotency classifier;
* `getClientName`: `c.getClientName()`;
* `Reset`: `resp.Reset()`;
* `resetSkipHeader`: `resp.resetSkipHeader()`;
* `mustSkipBody`: `resp.mustSkipBody()`;
* `AcquireResponse`: the response object `AcquireResponse()` hands out. -/
structure Pkg where
  DefaultMaxIdemponentCallAttempts : Int
  isIdempotent : Request → Bool
  getClientName : HostClient → List Byte
  Reset : Response → Response
  resetSkipHeader : Response → Response
  mustSkipBody : Response → Bool
  AcquireResponse : Response

/-- Outcome of one call of `resp.Header.Read(r)`, which is defined outside `http_io.go`:
the error and the header fields it leaves. -/
structure HeaderResult where
  err : Option Err
  statusCode : Int
  contentLength : Int
  connectionClose : Bool
  deriving DecidableEq, Repr

/-- The effect of `h.Read(r)` on the header, given its outcome. -/
def ResponseHeader.Read (h : ResponseHeader) (o : HeaderResult) : ResponseHeader :=
  { h with statusCode := o.statusCode, contentLength := o.contentLength,
           connectionClose := o.connectionClose }

/-- What the outside world does during one exchange attempt.

* `acquireErr`, `conn`: result of `c.acquireConn`; `conn` identifies the connection;
* `age`: `time.Since(cc.createdTime)`;
* `writeDeadlineErr`, `readDeadlineErr`: results of `conn.SetWriteDeadline`,
  `conn.SetReadDeadline`;
* `writeErr`, `flushErr`: results of `req.Write(bw)` and `bw.Flush()`;
* `header`, `header2`: outcomes of the first call of `resp.Header.Read` and of the second
  one, made after a 100 Continue;
* `body`: the reader `br` as the header layer leaves it. -/
structure Attempt where
  acquireErr : Option Err
  conn : Nat
  age : Int
  writeDeadlineErr : Option Err
  writeErr : Option Err
  flushErr : Option Err
  readDeadlineErr : Option Err
  header : HeaderResult
  header2 : HeaderResult
  body : Reader
  deriving DecidableEq, Repr

/-- Calls that an exchange makes, as recorded in order. `doBodyCopy engine err` records that
`resp.doBodyCopy` returned `err`, and whether it invoked `readBodyCopy`. -/
inductive Event where
  | acquireConn (conn : Nat)
  | closeConn (conn : Nat)
  | releaseConn (conn : Nat)
  | doBodyCopy (engine : Bool) (err : Option Err)
  deriving DecidableEq, Repr

/-- The objects one exchange works on: request, response, sink. -/
structure Call where
  req : Request
  resp : Response
  w : Writer
  deriving DecidableEq, Repr

/-- What `doBodyCopy` returns and leaves behind; `engine` tells whether `readBodyCopy`
was invoked. -/
structure BodyCopyResult where
  err : Option Err
  resp : Response
  r : Reader
  w : Writer
  engine : Bool
  deriving DecidableEq, Repr

/-- The method `Response.doBodyCopy(r, maxBodySize, w)`. The argument `r` is given by
the header outcomes and the reader `a.body`; the function body does not use
`maxBodySize`. The assignment `resp.bodyLength, err = readBodyCopy(...)` stores the count
also when `readBodyCopy` fails. -/
def Response.doBodyCopy (pkg : Pkg) (resp : Response) (a : Attempt) (_maxBodySize : Int)
    (w : Writer) : Option BodyCopyResult :=
  let resp := pkg.resetSkipHeader resp
  let resp := { resp with Header := resp.Header.Read a.header }
  if a.header.err ≠ none then
    some { err := a.header.err, resp := resp, r := a.body, w := w, engine := false }
  else
    let second : Bool := decide (resp.Header.StatusCode = StatusContinue)
    let resp := if second then { resp with Header := resp.Header.Read a.header2 } else resp
    if second = true ∧ a.header2.err ≠ none then
      some { err := a.header2.err, resp := resp, r := a.body, w := w, engine := false }
    else if pkg.mustSkipBody resp = false then
      match readBodyCopy a.body resp.Header.ContentLength w with
      | none => none
      | some c =>
        some { err := c.err, resp := { resp with bodyLength := c.cnt }, r := c.r, w := c.w,
               engine := true }
    else
      some { err := none, resp := resp, r := a.body, w := w, engine := false }

/-- Result of one exchange: the pair `(retry, err)` it returns, the objects as it leaves
them, and the record of the calls it made, in order. -/
structure Outcome (σ : Type) where
  retry : Bool
  err : Option Err
  st : σ
  events : List Event
  deriving DecidableEq, Repr

/-- Lines 169-171 of `doNonNilReqRespCopy`: the request after
`if c.DisablePathNormalizing { req.URI().DisablePathNormalizing = true }`. The accessor
`req.URI()` is defined outside `http_io.go`; it is taken to hand out the URI `req.uri`. -/
def applyPathNormalizing (c : HostClient) (req : Request) : Request :=
  if c.DisablePathNormalizing then
    { req with uri := { req.uri with DisablePathNormalizing := true } }
  else req

/-- The local variable `resetConnection` of `doNonNilReqRespCopy` (lines 191-195), for the
request as it is before the write. -/
def resetConnection (c : HostClient) (a : Attempt) (req : Request) : Bool :=
  decide (c.MaxConnDuration > 0 ∧ a.age > c.MaxConnDuration ∧ req.ConnectionClose = false)

/-- Modelled from the spec: `Request.Write` is defined outside `http_io.go`. The spec says
that the exchange serializes and writes the request, and that the request is read-only
during the exchange apart from the connection-close toggle. Accordingly the call
`req.Write(bw)` is taken to leave the request as it is; the error it returns is the
`writeErr` of the attempt. Whether the call changes the body stream or the URI cannot be
read off `http_io.go`; the theorem on what an exchange changes in the request says nothing
of these two after the call. -/
def Request.Write (req : Request) : Request := req

/-- Lines 191-206 of `doNonNilReqRespCopy`: the request after connection-close is set
when `resetConnection` holds, the user agent is filled in when it is empty, the request is
written, and connection-close is reset when `resetConnection` holds. -/
def writeRequest (pkg : Pkg) (c : HostClient) (a : Attempt) (req : Request) : Request :=
  let reset := resetConnection c a req
  let req := if reset then req.SetConnectionClose else req
  let userAgentOld := req.Header.UserAgent
  let req :=
    if userAgentOld.length = 0 then
      { req with Header := { req.Header with userAgent := pkg.getClientName c } }
    else req
  let req := req.Write
  if reset then { req with Header := req.Header.ResetConnectionClose } else req

/-- Lines 202-210 of `doNonNilReqRespCopy`: the value of `err` after `req.Write(bw)` and,
if that succeeded, `bw.Flush()`. -/
def writeFlushErr (a : Attempt) : Option Err :=
  if a.writeErr = none then a.flushErr else a.writeErr

/-- Lines 228-233 of `doNonNilReqRespCopy`: the response after the skip-body flag and the
header normalizing flag are set. -/
def prepareResponse (c : HostClient) (customSkipBody : Bool) (req : Request)
    (resp : Response) : Response :=
  let resp :=
    if customSkipBody = true ∨ req.Header.IsHead = true then { resp with SkipBody := true }
    else resp
  if c.DisableHeaderNamesNormalizing then
    { resp with Header := resp.Header.DisableNormalizing }
  else resp

/-- The method `HostClient.doNonNilReqRespCopy(req, resp, w)`. Not modelled: the store to
`c.lastUseTime`, `resp.parseNetConn(conn)` (which records the addresses of the
connection), and the acquiring and releasing of the pooled writer and reader objects. -/
def doNonNilReqRespCopy (pkg : Pkg) (c : HostClient) (a : Attempt) (s : Call) :
    Option (Outcome Call) :=
  if c.IsTLS ≠ decide (s.req.uri.scheme = strHTTPS) then
    some { retry := false, err := some Err.ErrHostClientRedirectToDifferentScheme, st := s,
           events := [] }
  else
    let customSkipBody := s.resp.SkipBody
    let resp := { pkg.Reset s.resp with SkipBody := customSkipBody }
    let req := applyPathNormalizing c s.req
    if a.acquireErr ≠ none then
      some { retry := false, err := a.acquireErr, st := { s with req := req, resp := resp },
             events := [] }
    else if c.WriteTimeout > 0 ∧ a.writeDeadlineErr ≠ none then
      some { retry := true, err := a.writeDeadlineErr,
             st := { req := req, resp := resp, w := s.w },
             events := [Event.acquireConn a.conn, Event.closeConn a.conn] }
    else
      let reset := resetConnection c a req
      let req := writeRequest pkg c a req
      let err := writeFlushErr a
      if err ≠ none then
        some { retry := true, err := err,
               st := { req := req, resp := resp, w := s.w },
               events := [Event.acquireConn a.conn, Event.closeConn a.conn] }
      else if c.ReadTimeout > 0 ∧ a.readDeadlineErr ≠ none then
        some { retry := true, err := a.readDeadlineErr,
               st := { req := req, resp := resp, w := s.w },
               events := [Event.acquireConn a.conn, Event.closeConn a.conn] }
      else
        let resp := prepareResponse c customSkipBody req resp
        match resp.doBodyCopy pkg a c.MaxResponseBodySize s.w with
        | none => none
        | some b =>
          if b.err ≠ none then
            some { retry := decide (b.err ≠ some Err.ErrBodyTooLarge), err := b.err,
                   st := { req := req, resp := b.resp, w := b.w },
                   events := [Event.acquireConn a.conn, Event.doBodyCopy b.engine b.err,
                              Event.closeConn a.conn] }
          else if reset = true ∨ req.ConnectionClose = true ∨
              b.resp.ConnectionClose = true then
            some { retry := false, err := b.err,
                   st := { req := req, resp := b.resp, w := b.w },
                   events := [Event.acquireConn a.conn, Event.doBodyCopy b.engine b.err,
                              Event.closeConn a.conn] }
          else
            some { retry := false, err := b.err,
                   st := { req := req, resp := b.resp, w := b.w },
                   events := [Event.acquireConn a.conn, Event.doBodyCopy b.engine b.err,
                              Event.releaseConn a.conn] }

/-- The objects one logical call works on; `resp` is `none` for a nil response argument;
`pendingRequests` is the counter `c.pendingRequests`. -/
structure Session where
  req : Request
  resp : Option Response
  w : Writer
  pendingRequests : Int
  deriving DecidableEq, Repr

/-- The method `HostClient.doCopy(req, resp, w)`. -/
def doCopy (pkg : Pkg) (c : HostClient) (a : Attempt) (s : Session) :
    Option (Outcome Session) :=
  let nilResp := s.resp.isNone
  let resp := match s.resp with
    | none => pkg.AcquireResponse
    | some x => x
  match doNonNilReqRespCopy pkg c a { req := s.req, resp := resp, w := s.w } with
  | none => none
  | some o =>
    some { retry := o.retry, err := o.err,
           st := { s with req := o.st.req,
                          resp := if nilResp then none else some o.st.resp,
                          w := o.st.w },
           events := o.events }

/-- What `DoCopy` returns and leaves behind; `trace` lists the outcomes of the exchanges
it invoked, in order. -/
structure DoCopyResult where
  err : Option Err
  st : Session
  trace : List (Outcome Session)

/-- Number of times the exchange was invoked. -/
def DoCopyResult.calls (res : DoCopyResult) : Nat := res.trace.length

/-- The local variable `maxAttempts` of `DoCopy`. -/
def maxAttempts (pkg : Pkg) (c : HostClient) : Int :=
  if c.MaxIdemponentCallAttempts ≤ 0 then pkg.DefaultMaxIdemponentCallAttempts
  else c.MaxIdemponentCallAttempts

/-- The local variable `isRequestRetryable` of `DoCopy`. -/
def isRequestRetryable (pkg : Pkg) (c : HostClient) : Request → Bool :=
  match c.RetryIf with
  | some f => f
  | none => pkg.isIdempotent

/-- The `for` loop of `DoCopy`, with the callee `c.doCopy` as the parameter `exchange`
(its first argument is the number of exchanges made before). -/
def DoCopyLoop (exchange : Nat → Session → Option (Outcome Session))
    (retryable : Request → Bool) (hasBodyStream : Bool) (maxAtt : Int) :
    Nat → Int → List (Outcome Session) → Session → Option DoCopyResult
  | 0, _, _, _ => none
  | fuel + 1, attempts, trace, s =>
    match exchange trace.length s with
    | none => none
    | some o =>
      let trace := trace ++ [o]
      if o.err = none ∨ o.retry = false then
        some { err := o.err, st := o.st, trace := trace }
      else if hasBodyStream = true then
        some { err := o.err, st := o.st, trace := trace }
      else if retryable o.st.req = false ∧ o.err ≠ some Err.EOF then
        some { err := o.err, st := o.st, trace := trace }
      else
        let attempts := attempts + 1
        if attempts ≥ maxAtt then
          some { err := o.err, st := o.st, trace := trace }
        else
          DoCopyLoop exchange retryable hasBodyStream maxAtt fuel attempts trace o.st

/-- The method `HostClient.DoCopy(req, resp, w)` over a given exchange function. The loop
makes at most `max(1, maxAttempts)` rounds. -/
def DoCopyWith (pkg : Pkg) (c : HostClient)
    (exchange : Nat → Session → Option (Outcome Session)) (s : Session) :
    Option DoCopyResult :=
  let hasBodyStream := s.req.IsBodyStream
  let s := { s with pendingRequests := s.pendingRequests + 1 }
  match DoCopyLoop exchange (isRequestRetryable pkg c) hasBodyStream (maxAttempts pkg c)
      ((maxAttempts pkg c).toNat + 1) 0 [] s with
  | none => none
  | some res =>
    some { err := if res.err = some Err.EOF then some Err.ErrConnectionClosed else res.err,
           st := { res.st with pendingRequests := res.st.pendingRequests - 1 },
           trace := res.trace }

/-- The method `HostClient.DoCopy(req, resp, w)`; `net i` is what the outside world does
during the exchange number `i`. -/
def DoCopy (pkg : Pkg) (c : HostClient) (net : Nat → Attempt) (s : Session) :
    Option DoCopyResult :=
  DoCopyWith pkg c (fun i s => doCopy pkg c (net i) s) s

/-! ## Predicates used in the statements -/

/-- The error `copyFixedSize` returns for the source error `e` at a read that hands over
nothing. -/
def promoteEOF (e : Err) : Err :=
  if e = Err.EOF then Err.ErrUnexpectedEOF else e

/-- Every recorded call of `Read` asked for at most `min(4096, left)` bytes, where `left`
is the declared length minus the bytes handed over by the calls before it. -/
def askedWithin : Int → List (Nat × Nat) → Prop
  | _, [] => True
  | left, (k, d) :: rest => (k : Int) ≤ min 4096 left ∧ askedWithin (left - d) rest

/-- The number of bytes the loop of `copyFixedSize` asks for in a round. -/
def request (n cnt : Int) : Nat :=
  (if n - cnt > 4096 then 4096 else n - cnt).toNat

/-- A chunk as the wire carries it: the hexadecimal digits of its size line, and its
payload. -/
structure Chunk where
  size : List Byte
  payload : List Byte
  deriving DecidableEq, Repr

/-- The number that a run of hexadecimal digits denotes. -/
def hexValue (ds : List Byte) : Nat :=
  ds.foldl (fun acc b => acc * 16 + (hexDigit b).getD 0) 0

/-- A size line holds at least one digit and only hexadecimal digits. -/
def isHexLine (ds : List Byte) : Prop :=
  ds ≠ [] ∧ ∀ b ∈ ds, hexDigit b ≠ none

/-- A chunk before the terminator: the size line denotes the length of the payload, and
the payload is not empty. -/
def Chunk.valid (c : Chunk) : Prop :=
  isHexLine c.size ∧ hexValue c.size = c.payload.length ∧ c.payload ≠ []

/-- The bytes of a chunk on the wire: `<hex-size>\r\n<payload>\r\n`. -/
def Chunk.wire (c : Chunk) : List Byte :=
  c.size ++ strCRLF ++ c.payload ++ strCRLF

/-- The bytes of a chunked body: the chunks, then the zero-size chunk with the size line
`zero` and its trailing CRLF. -/
def wireBody (cs : List Chunk) (zero : List Byte) : List Byte :=
  (cs.map Chunk.wire).flatten ++ (zero ++ strCRLF ++ strCRLF)

/-- The condition under which the loop of `DoCopy` goes on after the exchange number `i`
(counted from 0) has returned `o`: none of the four `break`s is taken. -/
def goesOn (retryable : Request → Bool) (hasBodyStream : Bool) (maxAtt : Int) (i : Nat)
    (o : Outcome Session) : Prop :=
  o.err ≠ none ∧ o.retry = true ∧ hasBodyStream = false ∧
    (retryable o.st.req = true ∨ o.err = some Err.EOF) ∧ (i : Int) + 1 < maxAtt

/-- The outcomes `os` are those of successive exchanges, the first one numbered `i` and
started on `s`, each next one started on the objects as the one before left them. -/
def chained (exchange : Nat → Session → Option (Outcome Session)) :
    Nat → Session → List (Outcome Session) → Prop
  | _, _, [] => True
  | i, s, o :: os => exchange i s = some o ∧ chained exchange (i + 1) o.st os

/-! ## Concrete cases -/

/-- A blank response. -/
def blankResponse : Response :=
  { Header := { statusCode := 200, contentLength := 0, connectionClose := false,
                disableNormalizing := false },
    SkipBody := false, bodyLength := 0 }

/-- An instance of the declarations outside `http_io.go`, for the concrete cases: the
default attempt cap is 5; GET, HEAD and PUT are idempotent; the client name is `"c"`;
`Reset` gives a blank response; `resetSkipHeader` changes nothing that the model tracks;
the body is skipped exactly when `SkipBody` is set. -/
def pkg0 : Pkg :=
  { DefaultMaxIdemponentCallAttempts := 5
    isIdempotent := fun req =>
      decide (req.Header.method = [71, 69, 84] ∨ req.Header.method = [72, 69, 65, 68] ∨
        req.Header.method = [80, 85, 84])
    getClientName := fun _ => [99]
    Reset := fun _ => blankResponse
    resetSkipHeader := fun resp => resp
    mustSkipBody := fun resp => resp.SkipBody
    AcquireResponse := blankResponse }

/-- A plain-HTTP client with an attempt cap of 3 and no `RetryIf`, no timeouts, no limit
on the age of connections. -/
def client0 : HostClient :=
  { MaxIdemponentCallAttempts := 3, RetryIf := none, IsTLS := false,
    DisablePathNormalizing := false, DisableHeaderNamesNormalizing := false,
    WriteTimeout := 0, ReadTimeout := 0, MaxConnDuration := 0, MaxResponseBodySize := 0 }

/-- A request with the given method for an `http` URI, with the user agent `"a"`. -/
def requestOf (method : List Byte) (bodyStream : Bool) : Request :=
  { Header := { method := method, userAgent := [97], connectionClose := false },
    uri := { scheme := [104, 116, 116, 112], DisablePathNormalizing := false },
    bodyStream := bodyStream, timeout := 0 }

/-- A call with the given method, a caller-supplied blank response and a sink that accepts
at most `room` bytes and then reports `ErrBodyTooLarge` (`none`: no limit). -/
def sessionOf (method : List Byte) (bodyStream : Bool) (room : Option Nat) : Session :=
  { req := requestOf method bodyStream, resp := some blankResponse,
    w := { out := [], room := room, werr := Err.ErrBodyTooLarge }, pendingRequests := 0 }

/-- The header outcome of a response with status 200 and the given content length. -/
def headerOK (contentLength : Int) : HeaderResult :=
  { err := none, statusCode := 200, contentLength := contentLength, connectionClose := false }

/-- An attempt on connection `conn` in which everything up to the response works, and the
response has the given content length and body bytes, after which the peer closes. -/
def attemptBody (conn : Nat) (contentLength : Int) (body : List Byte) : Attempt :=
  { acquireErr := none, conn := conn, age := 0, writeDeadlineErr := none, writeErr := none,
    flushErr := none, readDeadlineErr := none, header := headerOK contentLength,
    header2 := headerOK contentLength, body := Reader.ofData body Err.EOF }

/-- An attempt on connection `conn` in which writing the request fails with a transport
error. -/
def attemptWriteFails (conn : Nat) : Attempt :=
  { attemptBody conn 0 [] with writeErr := some (Err.other 1) }

/-- An attempt on connection `conn` in which the peer closes the connection before
sending anything: reading the response header fails with `io.EOF`. -/
def attemptNoResponse (conn : Nat) : Attempt :=
  { attemptBody conn 0 [] with
    header := { err := some Err.EOF, statusCode := 0, contentLength := 0,
                connectionClose := false } }

/-- What the concrete cases look at in the outcome of an exchange. -/
def Outcome.view (o : Outcome Session) : Bool × Option Err × List Byte × List Event :=
  (o.retry, o.err, o.st.w.out, o.events)

/-- Whether a recorded call hands a connection back to the pool or discards it:
`closeConn` or `releaseConn`. -/
def Event.isDisposal : Event → Bool
  | Event.closeConn _ => true
  | Event.releaseConn _ => true
  | _ => false

/-- A call like `sessionOf`, for the given request. -/
def sessionFor (req : Request) (room : Option Nat) : Session :=
  { req := req, resp := some blankResponse,
    w := { out := [], room := room, werr := Err.ErrBodyTooLarge }, pendingRequests := 0 }

/-- An attempt in which acquiring a connection fails with a transport error. -/
def attemptNoConn : Attempt :=
  { attemptBody 0 0 [] with acquireErr := some (Err.other 2) }

/-- A GET request for an `https` URI. -/
def requestHTTPS : Request :=
  { requestOf [71, 69, 84] false with
    uri := { scheme := strHTTPS, DisablePathNormalizing := false } }

/-- A HEAD request for an `http` URI. -/
def requestHead : Request := requestOf [72, 69, 65, 68] false

/-- A GET request for an `http` URI without user agent. -/
def requestNoUA : Request :=
  { requestOf [71, 69, 84] false with
    Header := { method := [71, 69, 84], userAgent := [], connectionClose := false } }

/-- The client `client0` with a `RetryIf` that accepts a request exactly when it carries
no user agent. -/
def clientRetryIfNoUserAgent : HostClient :=
  { client0 with RetryIf := some (fun req => decide (req.Header.userAgent = [])) }

/-- The client `client0` with a `RetryIf` that accepts a request exactly when it carries a
user agent. -/
def clientRetryIfUserAgent : HostClient :=
  { client0 with RetryIf := some (fun req => decide (req.Header.userAgent ≠ [])) }

/-- What the concrete cases look at in the result of a copy: count, error, the bytes the
sink holds, the bytes the source has left. -/
def CopyResult.view (c : CopyResult) : Int × Option Err × List Byte × List Byte :=
  (c.cnt, c.err, c.w.out, c.r.data)

/-! ## The source and the sink -/

theorem Reader.Read_nil (r : Reader) (k : Nat) (h : r.data = []) :
    r.Read k = ([], some r.fin, { r with asked := r.asked ++ [(k, 0)] }) := by
  unfold Reader.Read
  rw [h]

theorem Reader.Read_cons (r : Reader) (k : Nat) (h : r.data ≠ []) :
    r.Read k = (r.data.take (r.grant k), none,
      { r with data := r.data.drop (r.grant k), caps := r.caps.tail,
               asked := r.asked ++ [(k, (r.data.take (r.grant k)).length)] }) := by
  unfold Reader.Read
  cases hd : r.data with
  | nil => exact absurd hd h
  | cons b bs => rfl

theorem Reader.grant_le (r : Reader) (k : Nat) : r.grant k ≤ k := by
  unfold Reader.grant
  split
  · exact le_refl k
  · exact min_le_left _ _

theorem Reader.grant_nil (r : Reader) (k : Nat) (h : r.caps = []) : r.grant k = k := by
  unfold Reader.grant
  rw [h]

theorem Writer.Write_unbounded (w : Writer) (p : List Byte) (h : w.room = none) :
    w.Write p = ((p.length : Int), none, { w with out := w.out ++ p }) := by
  unfold Writer.Write
  rw [h]

/-! ## The fixed-length copier -/

theorem take_append_take_drop (l : List Byte) :
    ∀ j m : Nat, j ≤ m → l.take j ++ (l.drop j).take (m - (l.take j).length) = l.take m := by
  induction l with
  | nil => intro j m _; simp
  | cons a t ih =>
    intro j m h
    cases j with
    | zero => simp
    | succ j =>
      cases m with
      | zero => omega
      | succ m =>
        have := ih j m (by omega)
        simpa using this

theorem drop_drop_take_length (l : List Byte) :
    ∀ j m : Nat, j ≤ m → (l.drop j).drop (m - (l.take j).length) = l.drop m := by
  induction l with
  | nil => intro j m _; simp
  | cons a t ih =>
    intro j m h
    cases j with
    | zero => simp
    | succ j =>
      cases m with
      | zero => omega
      | succ m =>
        have := ih j m (by omega)
        simpa using this

theorem chunk_request (m : Nat) :
    (if (m : Int) > 4096 then (4096 : Int) else (m : Int)).toNat = min 4096 m := by
  split <;> omega

theorem request_eq (n cnt : Int) (m : Nat) (h : n - cnt = m) : request n cnt = min 4096 m := by
  unfold request
  rw [h]
  exact chunk_request m

theorem copyFixedSizeLoop_done (fuel : Nat) (r : Reader) (w : Writer) (n cnt : Int)
    (err : Option Err) (h : n - cnt ≤ 0) :
    copyFixedSizeLoop (fuel + 1) r w n cnt err =
      some { cnt := cnt, err := err, r := r, w := w } := by
  simp [copyFixedSizeLoop, h]

theorem copyFixedSizeLoop_eof (fuel : Nat) (r : Reader) (w : Writer) (n cnt : Int)
    (err : Option Err) (h : 0 < n - cnt) (hd : r.data = []) :
    copyFixedSizeLoop (fuel + 1) r w n cnt err =
      some { cnt := cnt, err := some (promoteEOF r.fin),
             r := { r with asked := r.asked ++ [(request n cnt, 0)] }, w := w } := by
  unfold copyFixedSizeLoop
  simp only [not_le.mpr h, if_false]
  rw [Reader.Read_nil r _ hd]
  by_cases hf : r.fin = Err.EOF <;> simp [hf, promoteEOF, request]

theorem copyFixedSizeLoop_step (fuel : Nat) (r : Reader) (w : Writer) (n cnt : Int)
    (err : Option Err) (h : 0 < n - cnt) (hd : r.data ≠ []) (hw : w.room = none) :
    copyFixedSizeLoop (fuel + 1) r w n cnt err =
      copyFixedSizeLoop fuel
        { r with data := r.data.drop (r.grant (request n cnt)), caps := r.caps.tail,
                 asked := r.asked ++
                   [(request n cnt, (r.data.take (r.grant (request n cnt))).length)] }
        { w with out := w.out ++ r.data.take (r.grant (request n cnt)) } n
        (cnt + ((r.data.take (r.grant (request n cnt))).length : Nat)) none := by
  conv_lhs => unfold copyFixedSizeLoop
  simp only [not_le.mpr h, if_false]
  rw [Reader.Read_cons r _ hd]
  simp only [Writer.Write_unbounded _ _ hw]
  simp [request]

/-- The loop of `copyFixedSize` on a sink without limit: it copies the declared bytes, or
all the source holds if that is less, and in the latter case fails with the error of the
source, `io.EOF` replaced by `io.ErrUnexpectedEOF`. -/
theorem copyFixedSizeLoop_unbounded (fuel : Nat) :
    ∀ (r : Reader) (w : Writer) (n cnt : Int), w.room = none →
      r.data.length + r.caps.length < fuel →
      ∃ res, copyFixedSizeLoop fuel r w n cnt none = some res ∧
        res.cnt = cnt + (min (n - cnt).toNat r.data.length : Nat) ∧
        res.err = (if (n - cnt).toNat ≤ r.data.length then none
                   else some (promoteEOF r.fin)) ∧
        res.r.data = r.data.drop (n - cnt).toNat ∧
        res.r.fin = r.fin ∧
        (r.caps = [] → res.r.caps = []) ∧
        res.w = { w with out := w.out ++ r.data.take (n - cnt).toNat } ∧
        ∃ new, res.r.asked = r.asked ++ new ∧ askedWithin (n - cnt) new := by
  induction fuel with
  | zero => intro r w n cnt _ h; omega
  | succ fuel ih =>
    intro r w n cnt hw hf
    by_cases hleft : n - cnt ≤ 0
    · have hz : (n - cnt).toNat = 0 := by omega
      rw [copyFixedSizeLoop_done _ _ _ _ _ _ hleft]
      refine ⟨_, rfl, ?_, ?_, ?_, rfl, fun h => h, ?_, [], by simp, trivial⟩
      all_goals simp [hz]
    · have hpos : 0 < n - cnt := not_le.mp hleft
      obtain ⟨m, hm⟩ := Int.eq_ofNat_of_zero_le (le_of_lt hpos)
      have hm1 : 1 ≤ m := by omega
      have htn : (n - cnt).toNat = m := by omega
      have hk : request n cnt = min 4096 m := request_eq n cnt m hm
      by_cases hd : r.data = []
      · rw [copyFixedSizeLoop_eof _ _ _ _ _ _ hpos hd]
        refine ⟨_, rfl, ?_, ?_, ?_, rfl, fun h => h, ?_, [(request n cnt, 0)], rfl, ?_⟩
        · simp [hd]
        · simp [hd, htn]
          omega
        · simp [hd]
        · simp [hd]
        · simp only [askedWithin, and_true, hk, hm]
          omega
      · rw [copyFixedSizeLoop_step _ _ _ _ _ _ hpos hd hw]
        have hjk : r.grant (request n cnt) ≤ min 4096 m := hk ▸ r.grant_le _
        have hj0 : r.caps = [] → r.grant (request n cnt) = min 4096 m :=
          fun h => hk ▸ r.grant_nil _ h
        generalize r.grant (request n cnt) = j at hjk hj0 ⊢
        have hlen : (r.data.take j).length = min j r.data.length := List.length_take ..
        have hdpos : 0 < r.data.length := List.length_pos.mpr hd
        have hjm : j ≤ m := le_trans hjk (min_le_right _ _)
        have hfuel : (r.data.drop j).length + r.caps.tail.length < fuel := by
          rw [List.length_drop, List.length_tail]
          cases hc : r.caps with
          | nil =>
            have := hj0 hc
            rw [hc] at hf
            simp at hf ⊢
            omega
          | cons c cs =>
            rw [hc] at hf
            simp at hf ⊢
            omega
        obtain ⟨res, hres, h1, h2, h3, h4, h5, h6, new, h7, h8⟩ :=
          ih { r with data := r.data.drop j, caps := r.caps.tail,
                      asked := r.asked ++ [(request n cnt, (r.data.take j).length)] }
            { w with out := w.out ++ r.data.take j } n
            (cnt + ((r.data.take j).length : Nat)) hw hfuel
        have hrem : (n - (cnt + ((r.data.take j).length : Nat))).toNat
            = m - (r.data.take j).length := by omega
        simp only [hrem] at h1 h2 h3 h6
        refine ⟨res, hres, ?_, ?_, ?_, h4, ?_, ?_, (request n cnt, (r.data.take j).length) :: new,
          ?_, ?_⟩
        · rw [h1, htn, List.length_drop, hlen]
          omega
        · rw [h2, htn, List.length_drop, hlen]
          have hiff : (m - min j r.data.length ≤ r.data.length - j) ↔ m ≤ r.data.length := by
            omega
          simp only [hiff]
        · rw [h3, htn]
          exact drop_drop_take_length r.data j m hjm
        · intro hc
          exact h5 (by simp [hc])
        · rw [h6, htn]
          simp only [List.append_assoc, take_append_take_drop r.data j m hjm]
        · rw [h7]
          simp
        · simp only [askedWithin]
          refine ⟨by rw [hk, hm]; omega, ?_⟩
          rw [sub_add_eq_sub_sub] at h8
          exact h8

/-- The function `copyFixedSize` on a sink without limit. -/
theorem copyFixedSize_unbounded (r : Reader) (w : Writer) (n : Int) (hw : w.room = none) :
    ∃ res, copyFixedSize r w n = some res ∧
      res.cnt = (min n.toNat r.data.length : Nat) ∧
      res.err = (if n.toNat ≤ r.data.length then none else some (promoteEOF r.fin)) ∧
      res.r.data = r.data.drop n.toNat ∧
      res.r.fin = r.fin ∧
      (r.caps = [] → res.r.caps = []) ∧
      res.w = { w with out := w.out ++ r.data.take n.toNat } ∧
      ∃ new, res.r.asked = r.asked ++ new ∧ askedWithin n new := by
  have h := copyFixedSizeLoop_unbounded r.budget r w n 0 hw (by unfold Reader.budget; omega)
  simpa [copyFixedSize] using h

/-- C2. Fixed-length mode: for a declared length `N ≥ 0`, a source that holds at least
`N` bytes and a sink that accepts every write, `readBodyCopy(r, N, w)` returns `(N, nil)`,
the sink receives the first `N` bytes of the source, the source is left exactly after
those `N` bytes, and every call of `Read` asked for at most `min(4096, N - copied)` bytes.
The reads may hand over fewer bytes than asked for (also none, for finitely many
calls). -/
theorem readBodyCopy_fixed_length (r : Reader) (w : Writer) (N : Int) (hN : 0 ≤ N)
    (hlen : N ≤ r.data.length) (hw : w.room = none) :
    ∃ res, readBodyCopy r N w = some res ∧
      res.cnt = N ∧ res.err = none ∧
      res.w.out = w.out ++ r.data.take N.toNat ∧
      res.r.data = r.data.drop N.toNat ∧
      ∃ new, res.r.asked = r.asked ++ new ∧ askedWithin N new := by
  obtain ⟨res, hres, h1, h2, h3, _, _, h6, h7⟩ := copyFixedSize_unbounded r w N hw
  have hle : N.toNat ≤ r.data.length := by omega
  refine ⟨res, ?_, ?_, ?_, ?_, h3, h7⟩
  · unfold readBodyCopy
    have h1 : ¬ N = -1 := by omega
    have h2 : ¬ N < 0 := by omega
    simp only [h1, h2, if_false]
    exact hres
  · rw [h1, min_eq_left hle]
    omega
  · rw [h2, if_pos hle]
  · rw [h6]

theorem readBodyCopy_fixed_length_witness :
    ∃ res, readBodyCopy (Reader.ofData [104, 101, 108, 108, 111] Err.EOF) 5 Writer.unbounded
        = some res ∧
      res.cnt = 5 ∧ res.err = none ∧
      res.w.out = Writer.unbounded.out ++
        (Reader.ofData [104, 101, 108, 108, 111] Err.EOF).data.take (5 : Int).toNat ∧
      res.r.data = (Reader.ofData [104, 101, 108, 108, 111] Err.EOF).data.drop (5 : Int).toNat ∧
      ∃ new, res.r.asked = (Reader.ofData [104, 101, 108, 108, 111] Err.EOF).asked ++ new ∧
        askedWithin 5 new :=
  readBodyCopy_fixed_length (Reader.ofData [104, 101, 108, 108, 111] Err.EOF)
    Writer.unbounded 5 (by decide) (by decide) rfl

/-- C3. Fixed-length under-delivery: for a declared length `N > 0` and a source that
holds only `M < N` bytes and then signals `io.EOF`, with a sink that accepts every write,
`copyFixedSize` returns `(M, io.ErrUnexpectedEOF)`, and the sink has received exactly
those `M` bytes. -/
theorem copyFixedSize_under_delivery (r : Reader) (w : Writer) (N : Int)
    (hlen : (r.data.length : Int) < N) (hfin : r.fin = Err.EOF) (hw : w.room = none) :
    ∃ res, copyFixedSize r w N = some res ∧
      res.cnt = r.data.length ∧ res.err = some Err.ErrUnexpectedEOF ∧
      res.err ≠ some Err.EOF ∧
      res.w.out = w.out ++ r.data ∧ res.r.data = [] := by
  obtain ⟨res, hres, h1, h2, h3, _, _, h6, _⟩ := copyFixedSize_unbounded r w N hw
  have hlt : r.data.length < N.toNat := by omega
  have h2 : res.err = some Err.ErrUnexpectedEOF := by
    rw [h2, if_neg (by omega), hfin]
    rfl
  refine ⟨res, hres, ?_, h2, ?_, ?_, ?_⟩
  · rw [h1, min_eq_right (le_of_lt hlt)]
  · rw [h2]
    decide
  · rw [h6, List.take_of_length_le (le_of_lt hlt)]
  · rw [h3, List.drop_eq_nil_of_le (le_of_lt hlt)]

theorem copyFixedSize_under_delivery_witness :
    ∃ res, copyFixedSize (Reader.ofData [104, 101, 108] Err.EOF) Writer.unbounded 5 = some res ∧
      res.cnt = (Reader.ofData [104, 101, 108] Err.EOF).data.length ∧
      res.err = some Err.ErrUnexpectedEOF ∧
      res.err ≠ some Err.EOF ∧
      res.w.out = Writer.unbounded.out ++ (Reader.ofData [104, 101, 108] Err.EOF).data ∧
      res.r.data = [] :=
  copyFixedSize_under_delivery (Reader.ofData [104, 101, 108] Err.EOF) Writer.unbounded 5
    (by decide) rfl rfl

/-- C4. Unknown-length mode as the code has it: for `contentLength < -1` and a source
that holds `M` bytes (fewer than `math.MaxInt64 / 2`) and then signals `io.EOF`,
`readBodyCopy` copies the `M` bytes to the sink and returns the count `M` together with
the error `io.ErrUnexpectedEOF`; it does not return without error. -/
theorem readBodyCopy_unknown_length (r : Reader) (w : Writer) (contentLength : Int)
    (hcl : contentLength < -1) (hlen : (r.data.length : Int) < 4611686018427387903)
    (hfin : r.fin = Err.EOF) (hw : w.room = none) :
    ∃ res, readBodyCopy r contentLength w = some res ∧
      res.cnt = r.data.length ∧ res.w.out = w.out ++ r.data ∧
      res.err = some Err.ErrUnexpectedEOF := by
  obtain ⟨res, hres, h1, h2, _, _, _, h6, _⟩ :=
    copyFixedSize_unbounded r w 4611686018427387903 hw
  have hlt : r.data.length < (4611686018427387903 : Int).toNat := by omega
  refine ⟨res, ?_, ?_, ?_, ?_⟩
  · unfold readBodyCopy
    have h1 : ¬ contentLength = -1 := by omega
    have h2 : contentLength < 0 := by omega
    simp only [h1, h2, if_false, if_true]
    exact hres
  · rw [h1, min_eq_right (le_of_lt hlt)]
  · rw [h6, List.take_of_length_le (le_of_lt hlt)]
  · rw [h2, if_neg (by omega), hfin]
    rfl

theorem readBodyCopy_unknown_length_witness :
    ∃ res, readBodyCopy (Reader.ofData [104, 101, 108, 108, 111] Err.EOF) (-2)
        Writer.unbounded = some res ∧
      res.cnt = (Reader.ofData [104, 101, 108, 108, 111] Err.EOF).data.length ∧
      res.w.out = Writer.unbounded.out ++ (Reader.ofData [104, 101, 108, 108, 111] Err.EOF).data ∧
      res.err = some Err.ErrUnexpectedEOF :=
  readBodyCopy_unknown_length (Reader.ofData [104, 101, 108, 108, 111] Err.EOF)
    Writer.unbounded (-2) (by decide) (by decide) rfl rfl

/-! ## The chunked copier -/

theorem readHexInt_line (ds tail : List Byte) (hds : ∀ b ∈ ds, hexDigit b ≠ none) :
    ∀ acc i, readHexInt (ds ++ 13 :: tail) acc i =
      (ds.foldl (fun acc b => acc * 16 + (hexDigit b).getD 0) acc, i + ds.length,
        13 :: tail) := by
  induction ds with
  | nil =>
    intro acc i
    have h13 : hexDigit 13 = none := by decide
    simp [readHexInt, h13]
  | cons d ds ih =>
    intro acc i
    have hd : hexDigit d ≠ none := hds d (by simp)
    obtain ⟨v, hv⟩ := Option.ne_none_iff_exists'.mp hd
    have := ih (fun b hb => hds b (by simp [hb])) (acc * 16 + v) (i + 1)
    rw [List.cons_append, readHexInt]
    simp only [hv, this, List.foldl_cons, Option.getD_some, List.length_cons, Prod.mk.injEq,
      and_true, true_and]
    omega

/-- The tokenizer on a well-formed size line: it returns the number the digits denote and
leaves the reader right after the CRLF of the line. -/
theorem parseChunkSize_line (r : Reader) (ds rest : List Byte) (hds : isHexLine ds)
    (hdata : r.data = ds ++ strCRLF ++ rest) :
    parseChunkSize r = ((hexValue ds : Int), none, { r with data := rest }) := by
  obtain ⟨hne, hall⟩ := hds
  have hrd := readHexInt_line ds (10 :: rest) hall 0 0
  have hdata2 : r.data = ds ++ 13 :: 10 :: rest := by
    rw [hdata]
    simp [strCRLF]
  unfold parseChunkSize
  rw [hdata2, hrd]
  cases ds with
  | nil => exact absurd rfl hne
  | cons d ds => simp [hexValue]

/-- The boundary read on a reader that hands over what is asked for and holds CR LF
next: it stores CR LF into the two-byte buffer and consumes both bytes. -/
theorem Reader.Read_crlf (r : Reader) (tail : List Byte) (hcaps : r.caps = [])
    (hdata : r.data = strCRLF ++ tail) :
    r.Read 2 = (strCRLF, none,
      { r with data := tail, caps := [], asked := r.asked ++ [(2, 2)] }) := by
  have hne : r.data ≠ [] := by simp [hdata, strCRLF]
  rw [Reader.Read_cons r 2 hne, Reader.grant_nil r 2 hcaps, hdata, hcaps]
  simp [strCRLF]

/-- One round of the loop of `copyBodyChunked` on a well-formed chunk, read from a source
that hands over what is asked for. -/
theorem copyBodyChunkedLoop_round (fuel : Nat) (r : Reader) (w : Writer) (nn : Int)
    (buf ds payload tail : List Byte) (hcaps : r.caps = []) (hw : w.room = none)
    (hbuf : buf.length = 2) (hds : isHexLine ds) (hv : hexValue ds = payload.length)
    (hdata : r.data = ds ++ strCRLF ++ payload ++ strCRLF ++ tail) :
    ∃ r3 : Reader, r3.data = tail ∧ r3.caps = [] ∧ r3.fin = r.fin ∧
      copyBodyChunkedLoop (fuel + 1) r w nn buf =
        if payload = [] then
          some { cnt := nn + payload.length, err := none, r := r3,
                 w := { w with out := w.out ++ payload } }
        else
          copyBodyChunkedLoop fuel r3 { w with out := w.out ++ payload }
            (nn + payload.length) strCRLF := by
  have hparse := parseChunkSize_line r ds (payload ++ strCRLF ++ tail) hds
    (by simp [hdata])
  obtain ⟨c, hc, h1, h2, h3, h4, h5, h6, _⟩ :=
    copyFixedSize_unbounded { r with data := payload ++ strCRLF ++ tail } w
      (hexValue ds : Int) hw
  have hle : payload.length ≤ (payload ++ strCRLF ++ tail).length := by simp
  rw [hv] at hparse hc
  simp only [Int.toNat_ofNat, hv] at h1 h2 h3 h6
  rw [min_eq_left hle] at h1
  rw [if_pos hle] at h2
  have h3 : c.r.data = strCRLF ++ tail := by
    rw [h3]
    simp
  have h6 : c.w = { w with out := w.out ++ payload } := by
    rw [h6]
    simp
  have hread := Reader.Read_crlf c.r tail (h5 hcaps) h3
  refine ⟨{ c.r with data := tail, caps := [], asked := c.r.asked ++ [(2, 2)] }, rfl, rfl,
    h4, ?_⟩
  rw [copyBodyChunkedLoop]
  simp only [hparse, hc, h2, hbuf, hread, h1, h6]
  have hdrop : buf.drop strCRLF.length = [] := by
    apply List.drop_eq_nil_of_le
    simp [strCRLF, hbuf]
  simp only [hdrop, List.append_nil, ne_eq, not_true_eq_false, if_false]
  by_cases hp : payload = []
  · simp [hp]
  · have hlen : (payload.length : Int) ≠ 0 := by
      have := List.length_pos.mpr hp
      omega
    simp [hp, hlen]

theorem wireBody_nil (zero : List Byte) : wireBody [] zero = zero ++ strCRLF ++ strCRLF := by
  simp [wireBody]

theorem wireBody_cons (c : Chunk) (cs : List Chunk) (zero : List Byte) :
    wireBody (c :: cs) zero = c.size ++ strCRLF ++ c.payload ++ strCRLF ++ wireBody cs zero := by
  simp [wireBody, Chunk.wire]

theorem length_le_wireBody (zero : List Byte) (cs : List Chunk) :
    cs.length ≤ (wireBody cs zero).length := by
  induction cs with
  | nil => simp
  | cons c cs ih =>
    rw [wireBody_cons]
    simp [strCRLF] at ih ⊢
    omega

/-- The loop of `copyBodyChunked` on a well-formed chunked body, read from a source that
hands over what is asked for. -/
theorem copyBodyChunkedLoop_valid (zero rest : List Byte) (hz : isHexLine zero)
    (hz0 : hexValue zero = 0) (cs : List Chunk) :
    ∀ (fuel : Nat) (r : Reader) (w : Writer) (nn : Int) (buf : List Byte),
      cs.length < fuel → r.caps = [] → w.room = none → buf.length = 2 →
      (∀ c ∈ cs, c.valid) → r.data = wireBody cs zero ++ rest →
      ∃ res, copyBodyChunkedLoop fuel r w nn buf = some res ∧
        res.cnt = nn + ((cs.map (fun c => c.payload.length)).sum : Nat) ∧
        res.err = none ∧
        res.w = { w with out := w.out ++ (cs.map Chunk.payload).flatten } ∧
        res.r.data = rest ∧ res.r.fin = r.fin := by
  induction cs with
  | nil =>
    intro fuel r w nn buf hfuel hcaps hw hbuf _ hdata
    obtain ⟨f, rfl⟩ : ∃ f, fuel = f + 1 := ⟨fuel - 1, by simp at hfuel; omega⟩
    obtain ⟨r3, hd3, _, hf3, hloop⟩ :=
      copyBodyChunkedLoop_round f r w nn buf zero [] rest hcaps hw hbuf hz (by simp [hz0])
        (by rw [hdata, wireBody_nil]; simp)
    rw [hloop, if_pos rfl]
    refine ⟨_, rfl, ?_, rfl, ?_, hd3, hf3⟩
    · simp
    · simp
  | cons c cs ih =>
    intro fuel r w nn buf hfuel hcaps hw hbuf hvalid hdata
    obtain ⟨f, rfl⟩ : ∃ f, fuel = f + 1 := ⟨fuel - 1, by simp at hfuel; omega⟩
    obtain ⟨hline, hval, hne⟩ := hvalid c (by simp)
    obtain ⟨r3, hd3, hc3, hf3, hloop⟩ :=
      copyBodyChunkedLoop_round f r w nn buf c.size c.payload (wireBody cs zero ++ rest)
        hcaps hw hbuf hline hval (by rw [hdata, wireBody_cons]; simp)
    obtain ⟨res, hres, h1, h2, h3, h4, h5⟩ :=
      ih f r3 { w with out := w.out ++ c.payload } (nn + c.payload.length) strCRLF
        (by simp at hfuel; omega) hc3 hw (by simp [strCRLF])
        (fun x hx => hvalid x (by simp [hx])) hd3
    rw [hloop, if_neg hne]
    refine ⟨res, hres, ?_, h2, ?_, h4, by rw [h5, hf3]⟩
    · rw [h1]
      simp
      omega
    · rw [h3]
      simp

/-- C1. Chunked mode: for every well-formed chunked body (chunks
`<hex-size>\r\n<payload>\r\n` with non-empty payloads of the announced sizes, then a
zero-size chunk and its trailing CRLF), read from a source that hands over the bytes asked
for, with a sink that accepts every write, `readBodyCopy(r, -1, w)` returns the sum of
the payload sizes and no error, the sink receives the payloads in order, and the source
is left exactly after the CRLF of the terminator: the bytes `rest` that follow it are not
read. -/
theorem readBodyCopy_chunked_valid (r : Reader) (w : Writer) (cs : List Chunk)
    (zero rest : List Byte) (hcs : ∀ c ∈ cs, c.valid) (hz : isHexLine zero)
    (hz0 : hexValue zero = 0) (hcaps : r.caps = []) (hw : w.room = none)
    (hdata : r.data = wireBody cs zero ++ rest) :
    ∃ res, readBodyCopy r (-1) w = some res ∧
      res.cnt = ((cs.map (fun c => c.payload.length)).sum : Nat) ∧
      res.err = none ∧
      res.w.out = w.out ++ (cs.map Chunk.payload).flatten ∧
      res.r.data = rest := by
  have hfuel : cs.length < r.data.length + 1 := by
    have := length_le_wireBody zero cs
    rw [hdata, List.length_append]
    omega
  obtain ⟨res, hres, h1, h2, h3, h4, _⟩ :=
    copyBodyChunkedLoop_valid zero rest hz hz0 cs (r.data.length + 1) r w 0
      (List.replicate strCRLF.length 0) hfuel hcaps hw (by simp [strCRLF]) hcs hdata
  refine ⟨res, ?_, ?_, h2, ?_, h4⟩
  · simp only [readBodyCopy, copyBodyChunked, if_true]
    exact hres
  · rw [h1]
    simp
  · rw [h3]

theorem readBodyCopy_chunked_valid_witness :
    ∃ res, readBodyCopy
        (Reader.ofData [51, 13, 10, 102, 111, 111, 13, 10, 48, 13, 10, 13, 10] Err.EOF) (-1)
        Writer.unbounded = some res ∧
      res.cnt = (([{ size := [51], payload := [102, 111, 111] }].map
        (fun c : Chunk => c.payload.length)).sum : Nat) ∧
      res.err = none ∧
      res.w.out = Writer.unbounded.out ++
        ([{ size := [51], payload := [102, 111, 111] }].map Chunk.payload).flatten ∧
      res.r.data = [] :=
  readBodyCopy_chunked_valid
    (Reader.ofData [51, 13, 10, 102, 111, 111, 13, 10, 48, 13, 10, 13, 10] Err.EOF)
    Writer.unbounded [{ size := [51], payload := [102, 111, 111] }] [48] []
    (by unfold Chunk.valid isHexLine; decide) (by unfold isHexLine; decide) (by decide)
    rfl rfl (by decide)

/-- The chunk-boundary check when the boundary read hands over two bytes: in any round of
the loop of `copyBodyChunked` (with `nn` payload bytes copied in the rounds before), for
every chunk size `n`, the zero-size terminator included: if the size line parses as `n`,
the payload of `n` bytes is copied without error, and the boundary read hands over the two
bytes that follow the payload and these are not CR LF, then the function fails with the
error "cannot find crlf at the end of chunk", reports the count `nn + n`, and leaves the
source right after those two bytes: no further chunk is read. -/
theorem copyBodyChunkedLoop_missing_crlf (fuel : Nat) (r : Reader) (w : Writer) (nn : Int)
    (buf : List Byte) (n : Int) (r1 : Reader) (c : CopyResult) (b0 b1 : Byte) (r3 : Reader)
    (hbuf : buf.length = 2)
    (hparse : parseChunkSize r = (n, none, r1))
    (hcopy : copyFixedSize r1 w n = some c) (hok : c.err = none) (hcnt : c.cnt = n)
    (hread : c.r.Read 2 = ([b0, b1], none, r3)) (hbad : [b0, b1] ≠ strCRLF) :
    copyBodyChunkedLoop (fuel + 1) r w nn buf =
      some { cnt := nn + n, err := some Err.ErrNoCRLF, r := r3, w := c.w } := by
  have hdrop : buf.drop 2 = [] := List.drop_eq_nil_of_le (le_of_eq hbuf)
  rw [copyBodyChunkedLoop]
  simp only [hparse, hcopy, hok, hbuf, hread, hcnt]
  simp [hdrop, hbad]

theorem copyBodyChunkedLoop_missing_crlf_witness :
    copyBodyChunkedLoop (8 + 1)
        (Reader.ofData [51, 13, 10, 102, 111, 111, 88, 89, 52, 13, 10] Err.EOF)
        Writer.unbounded 0 [0, 0] =
      some { cnt := 0 + 3, err := some Err.ErrNoCRLF,
             r := { data := [52, 13, 10], caps := [], fin := Err.EOF,
                    asked := [(3, 3), (2, 2)] },
             w := { out := [102, 111, 111], room := none, werr := Err.other 0 } } :=
  copyBodyChunkedLoop_missing_crlf 8
    (Reader.ofData [51, 13, 10, 102, 111, 111, 88, 89, 52, 13, 10] Err.EOF)
    Writer.unbounded 0 [0, 0] 3
    { data := [102, 111, 111, 88, 89, 52, 13, 10], caps := [], fin := Err.EOF, asked := [] }
    { cnt := 3, err := none,
      r := { data := [88, 89, 52, 13, 10], caps := [], fin := Err.EOF, asked := [(3, 3)] },
      w := { out := [102, 111, 111], room := none, werr := Err.other 0 } }
    88 89
    { data := [52, 13, 10], caps := [], fin := Err.EOF, asked := [(3, 3), (2, 2)] }
    rfl (by decide) (by decide) rfl rfl (by decide) (by decide)

/-- The boundary check after the zero-size chunk: `"0\r\nXY"` fails with the error
"cannot find crlf at the end of chunk" and the count 0. -/
theorem copyBodyChunked_missing_crlf_terminator :
    (copyBodyChunked (Reader.ofData [48, 13, 10, 88, 89] Err.EOF) Writer.unbounded).map
        (fun c => (c.cnt, c.err, c.r.data, c.w.out)) =
      some (0, some Err.ErrNoCRLF, [], []) := by
  decide

/-- A round of the loop of `copyBodyChunked` on a chunk whose payload is followed by two
bytes that are not CR LF, read from a source that hands over what is asked for. -/
theorem copyBodyChunkedLoop_bad_round (fuel : Nat) (r : Reader) (w : Writer) (nn : Int)
    (buf ds payload tail : List Byte) (b0 b1 : Byte) (hcaps : r.caps = [])
    (hw : w.room = none) (hbuf : buf.length = 2) (hds : isHexLine ds)
    (hv : hexValue ds = payload.length) (hbad : [b0, b1] ≠ strCRLF)
    (hdata : r.data = ds ++ strCRLF ++ payload ++ b0 :: b1 :: tail) :
    ∃ res, copyBodyChunkedLoop (fuel + 1) r w nn buf = some res ∧
      res.cnt = nn + payload.length ∧ res.err = some Err.ErrNoCRLF ∧
      res.r.data = tail ∧ res.w = { w with out := w.out ++ payload } := by
  have hparse := parseChunkSize_line r ds (payload ++ b0 :: b1 :: tail) hds
    (by simp [hdata])
  obtain ⟨c, hc, h1, h2, h3, _, h5, h6, _⟩ :=
    copyFixedSize_unbounded { r with data := payload ++ b0 :: b1 :: tail } w
      (hexValue ds : Int) hw
  have hle : payload.length ≤ (payload ++ b0 :: b1 :: tail).length := by simp
  rw [hv] at hparse hc
  simp only [Int.toNat_ofNat, hv] at h1 h2 h3 h6
  rw [min_eq_left hle] at h1
  rw [if_pos hle] at h2
  have h3 : c.r.data = b0 :: b1 :: tail := by
    rw [h3]
    simp
  have h6 : c.w = { w with out := w.out ++ payload } := by
    rw [h6]
    simp
  have hne : c.r.data ≠ [] := by simp [h3]
  have hread : c.r.Read 2 = ([b0, b1], none,
      { c.r with data := tail, caps := [], asked := c.r.asked ++ [(2, 2)] }) := by
    rw [Reader.Read_cons c.r 2 hne, Reader.grant_nil c.r 2 (h5 hcaps), h3, h5 hcaps]
    rfl
  have hdrop : buf.drop 2 = [] := List.drop_eq_nil_of_le (le_of_eq hbuf)
  refine ⟨{ cnt := nn + payload.length, err := some Err.ErrNoCRLF,
            r := { c.r with data := tail, caps := [], asked := c.r.asked ++ [(2, 2)] },
            w := c.w }, ?_, rfl, rfl, rfl, h6⟩
  rw [copyBodyChunkedLoop]
  simp only [hparse, hc, h2, hbuf, hread, h1]
  simp [hdrop, hbad]

/-- The chunk-boundary check in a whole body: after any number of well-formed chunks, a
chunk of any size (zero included) whose payload is followed by two bytes that are not
CR LF makes `copyBodyChunked` fail with the error "cannot find crlf at the end of chunk";
the count is the number of payload bytes copied, the last payload included, and the
source is left right after those two bytes. The source hands over what is asked for. -/
theorem copyBodyChunked_missing_crlf (cs : List Chunk) (ds payload rest : List Byte)
    (b0 b1 : Byte) (hcs : ∀ c ∈ cs, c.valid) (hds : isHexLine ds)
    (hv : hexValue ds = payload.length) (hbad : [b0, b1] ≠ strCRLF) :
    ∀ (fuel : Nat) (r : Reader) (w : Writer) (nn : Int) (buf : List Byte),
      cs.length < fuel → r.caps = [] → w.room = none → buf.length = 2 →
      r.data = (cs.map Chunk.wire).flatten ++ (ds ++ strCRLF ++ payload ++ b0 :: b1 :: rest) →
      ∃ res, copyBodyChunkedLoop fuel r w nn buf = some res ∧
        res.cnt = nn + ((cs.map (fun c => c.payload.length)).sum : Nat) + payload.length ∧
        res.err = some Err.ErrNoCRLF ∧
        res.w.out = w.out ++ (cs.map Chunk.payload).flatten ++ payload ∧
        res.r.data = rest := by
  induction cs with
  | nil =>
    intro fuel r w nn buf hfuel hcaps hw hbuf hdata
    obtain ⟨f, rfl⟩ : ∃ f, fuel = f + 1 := ⟨fuel - 1, by simp at hfuel; omega⟩
    obtain ⟨res, hres, h1, h2, h3, h4⟩ :=
      copyBodyChunkedLoop_bad_round f r w nn buf ds payload rest b0 b1 hcaps hw hbuf hds hv
        hbad (by simpa using hdata)
    refine ⟨res, hres, ?_, h2, ?_, h3⟩
    · rw [h1]
      simp
    · rw [h4]
      simp
  | cons c cs ih =>
    intro fuel r w nn buf hfuel hcaps hw hbuf hdata
    obtain ⟨f, rfl⟩ : ∃ f, fuel = f + 1 := ⟨fuel - 1, by simp at hfuel; omega⟩
    obtain ⟨hline, hval, hne⟩ := hcs c (by simp)
    obtain ⟨r3, hd3, hc3, _, hloop⟩ :=
      copyBodyChunkedLoop_round f r w nn buf c.size c.payload
        ((cs.map Chunk.wire).flatten ++ (ds ++ strCRLF ++ payload ++ b0 :: b1 :: rest))
        hcaps hw hbuf hline hval (by rw [hdata]; simp [Chunk.wire])
    obtain ⟨res, hres, h1, h2, h3, h4⟩ :=
      ih (fun x hx => hcs x (by simp [hx])) f r3 { w with out := w.out ++ c.payload }
        (nn + c.payload.length) strCRLF (by simp at hfuel; omega) hc3 hw (by simp [strCRLF])
        hd3
    rw [hloop, if_neg hne]
    refine ⟨res, hres, ?_, h2, ?_, h4⟩
    · rw [h1]
      simp
      omega
    · rw [h3]
      simp

/-- C5, the code at concrete inputs. In `"2\r\nhi\r\n0\r\n\rZ"` the zero-size chunk is
followed by CR Z, and in `"1\r\na\r\n1\r\nb\r0\r\n\r\n"` the payload `b` is followed by
CR `0`: two bytes that are present and are not CR LF. Read from a source that hands over
what is asked for, both fail with "cannot find crlf at the end of chunk" and the count 2.
Read from a source whose boundary read at that place hands over one byte, the CR, the
buffer holds that CR and the LF that the boundary read before left in it, the comparison
with CR LF succeeds, and `copyBodyChunked` returns the count 2 without error: in the first
case with the Z left unread, in the second case after reading the next chunk as well. -/
theorem copyBodyChunked_accepts_missing_crlf :
    (copyBodyChunked
        (Reader.ofData [50, 13, 10, 104, 105, 13, 10, 48, 13, 10, 13, 90] Err.EOF)
        Writer.unbounded).map (fun c => (c.view, c.r.asked)) =
      some ((2, some Err.ErrNoCRLF, [104, 105], []), [(2, 2), (2, 2), (2, 2)]) ∧
    (copyBodyChunked
        { data := [50, 13, 10, 104, 105, 13, 10, 48, 13, 10, 13, 90], caps := [2, 2, 1],
          fin := Err.EOF, asked := [] }
        Writer.unbounded).map (fun c => (c.view, c.r.asked)) =
      some ((2, none, [104, 105], [90]), [(2, 2), (2, 2), (2, 1)]) ∧
    (copyBodyChunked
        (Reader.ofData [49, 13, 10, 97, 13, 10, 49, 13, 10, 98, 13, 48, 13, 10, 13, 10] Err.EOF)
        Writer.unbounded).map (fun c => (c.view, c.r.asked)) =
      some ((2, some Err.ErrNoCRLF, [97, 98], [13, 10, 13, 10]),
        [(1, 1), (2, 2), (1, 1), (2, 2)]) ∧
    (copyBodyChunked
        { data := [49, 13, 10, 97, 13, 10, 49, 13, 10, 98, 13, 48, 13, 10, 13, 10],
          caps := [1, 2, 1, 1], fin := Err.EOF, asked := [] }
        Writer.unbounded).map (fun c => (c.view, c.r.asked)) =
      some ((2, none, [97, 98], []), [(1, 1), (2, 2), (1, 1), (2, 1), (2, 2)]) := by
  refine ⟨by rfl, by rfl, by rfl, by rfl⟩

/-! ## Totality of the body transport engine -/

theorem Reader.Read_length_le (r : Reader) (k : Nat) :
    (r.Read k).2.2.data.length ≤ r.data.length := by
  by_cases hd : r.data = []
  · rw [Reader.Read_nil r k hd]
  · rw [Reader.Read_cons r k hd]
    simp

/-- The loop of `copyFixedSize` ends within the budget, for every source and sink. -/
theorem copyFixedSizeLoop_total (fuel : Nat) :
    ∀ (r : Reader) (w : Writer) (n cnt : Int) (err : Option Err),
      r.data.length + r.caps.length < fuel →
      ∃ res, copyFixedSizeLoop fuel r w n cnt err = some res ∧
        res.r.data.length ≤ r.data.length := by
  induction fuel with
  | zero => intro r w n cnt err h; omega
  | succ fuel ih =>
    intro r w n cnt err hf
    by_cases hleft : n - cnt ≤ 0
    · rw [copyFixedSizeLoop_done _ _ _ _ _ _ hleft]
      exact ⟨_, rfl, le_refl _⟩
    · have hpos : 0 < n - cnt := not_le.mp hleft
      by_cases hd : r.data = []
      · rw [copyFixedSizeLoop_eof _ _ _ _ _ _ hpos hd]
        exact ⟨_, rfl, le_refl _⟩
      · have hreq : 1 ≤ request n cnt := by
          unfold request
          split <;> omega
        have hdpos : 0 < r.data.length := List.length_pos.mpr hd
        have hfuel : (r.data.drop (r.grant (request n cnt))).length + r.caps.tail.length
            < fuel := by
          rw [List.length_drop, List.length_tail]
          cases hc : r.caps with
          | nil =>
            rw [Reader.grant_nil r _ hc]
            rw [hc] at hf
            simp at hf ⊢
            omega
          | cons c cs =>
            rw [hc] at hf
            simp at hf ⊢
            omega
        rw [copyFixedSizeLoop]
        simp only [hleft, if_false]
        rw [Reader.Read_cons r _ hd]
        generalize hW : w.Write (r.data.take (r.grant (request n cnt))) = wr
        obtain ⟨wn, werr, w1⟩ := wr
        have hW2 : w.Write (List.take
            (r.grant (if n - cnt > 4096 then 4096 else n - cnt).toNat) r.data) = (wn, werr, w1) :=
          hW
        simp only [hW2, ne_eq, not_true_eq_false, and_false, if_false]
        by_cases hwe : werr = none
        · obtain ⟨res, hres, hlen⟩ := ih
            { r with data := r.data.drop (r.grant (request n cnt)), caps := r.caps.tail,
                     asked := r.asked ++
                       [(request n cnt, (r.data.take (r.grant (request n cnt))).length)] }
            w1 n (cnt + wn) none hfuel
          refine ⟨res, ?_, ?_⟩
          · simp only [hwe, not_true_eq_false, if_false]
            exact hres
          · refine le_trans hlen ?_
            simp
        · simp only [hwe, not_false_eq_true, if_true]
          refine ⟨_, rfl, ?_⟩
          simp

theorem copyFixedSize_total (r : Reader) (w : Writer) (n : Int) :
    ∃ res, copyFixedSize r w n = some res ∧ res.r.data.length ≤ r.data.length :=
  copyFixedSizeLoop_total r.budget r w n 0 none (by unfold Reader.budget; omega)

theorem readHexInt_length_le (l : List Byte) :
    ∀ acc i, (readHexInt l acc i).2.2.length ≤ l.length := by
  induction l with
  | nil => intro acc i; simp [readHexInt]
  | cons b bs ih =>
    intro acc i
    rw [readHexInt]
    cases hb : hexDigit b with
    | none => simp
    | some d =>
      have := ih (acc * 16 + d) (i + 1)
      simp only [List.length_cons]
      omega

theorem parseChunkSize_progress (r r1 : Reader) (n : Int)
    (h : parseChunkSize r = (n, none, r1)) : r1.data.length < r.data.length := by
  have hle := readHexInt_length_le r.data 0 0
  unfold parseChunkSize at h
  split at h
  · simp at h
  · rename_i heq
    simp only [Prod.mk.injEq, true_and] at h
    obtain ⟨_, rfl⟩ := h
    rw [heq] at hle
    simp at hle ⊢
    omega
  · simp at h

/-- The loop of `copyBodyChunked` ends within the budget, for every source and sink. -/
theorem copyBodyChunkedLoop_total (fuel : Nat) :
    ∀ (r : Reader) (w : Writer) (nn : Int) (buf : List Byte), r.data.length < fuel →
      ∃ res, copyBodyChunkedLoop fuel r w nn buf = some res := by
  induction fuel with
  | zero => intro r w nn buf h; omega
  | succ fuel ih =>
    intro r w nn buf hf
    rw [copyBodyChunkedLoop]
    generalize hP : parseChunkSize r = pr
    obtain ⟨n, perr, r1⟩ := pr
    cases perr with
    | some e => exact ⟨_, rfl⟩
    | none =>
      have hprog := parseChunkSize_progress r r1 n hP
      obtain ⟨c, hc, hclen⟩ := copyFixedSize_total r1 w n
      simp only [hc]
      by_cases hce : c.err = none
      · simp only [hce, ne_eq, not_true_eq_false, if_false]
        have hrl := Reader.Read_length_le c.r buf.length
        generalize c.r.Read buf.length = rd at hrl
        obtain ⟨p, rerr, r3⟩ := rd
        simp only at hrl ⊢
        by_cases h1 : rerr = none
        · simp only [h1, not_true_eq_false, if_false]
          by_cases h2 : p ++ List.drop p.length buf = strCRLF
          · simp only [h2, not_true_eq_false, if_false]
            by_cases h3 : n = 0
            · simp only [h3, if_true]
              exact ⟨_, rfl⟩
            · simp only [h3, if_false]
              exact ih r3 c.w _ _ (by omega)
          · simp only [h2, not_false_eq_true, if_true]
            exact ⟨_, rfl⟩
        · simp only [h1, not_false_eq_true, if_true]
          exact ⟨_, rfl⟩
      · simp only [hce, ne_eq, not_false_eq_true, if_true]
        exact ⟨_, rfl⟩

/-- The function `readBodyCopy` returns for every source, declared length and sink. -/
theorem readBodyCopy_total (r : Reader) (contentLength : Int) (w : Writer) :
    ∃ res, readBodyCopy r contentLength w = some res := by
  unfold readBodyCopy
  split
  · exact copyBodyChunkedLoop_total _ r w 0 _ (by omega)
  · obtain ⟨res, hres, _⟩ := copyFixedSize_total r w
      (if contentLength < 0 then 4611686018427387903 else contentLength)
    exact ⟨res, hres⟩

/-! ## The retry loop -/

/-- The loop of `DoCopy` over an exchange function that always returns: it ends, the last
exchange is the first one after which the loop does not go on, and `DoCopy` has the error
and the objects of that exchange. -/
theorem DoCopyLoop_spec (exchange : Nat → Session → Option (Outcome Session))
    (htot : ∀ i s, ∃ o, exchange i s = some o)
    (retryable : Request → Bool) (hasBodyStream : Bool) (maxAtt : Int) (fuel : Nat) :
    ∀ (trace : List (Outcome Session)) (s : Session),
      (maxAtt - trace.length - 1).toNat < fuel →
      ∃ res new last,
        DoCopyLoop exchange retryable hasBodyStream maxAtt fuel (trace.length : Int) trace s
          = some res ∧
        res.trace = trace ++ new ++ [last] ∧ res.err = last.err ∧ res.st = last.st ∧
        (∀ j o, new[j]? = some o →
          goesOn retryable hasBodyStream maxAtt (trace.length + j) o) ∧
        ¬ goesOn retryable hasBodyStream maxAtt (trace.length + new.length) last ∧
        chained exchange trace.length s (new ++ [last]) := by
  induction fuel with
  | zero => intro trace s h; omega
  | succ fuel ih =>
    intro trace s hf
    obtain ⟨o, ho⟩ := htot trace.length s
    have stop : ¬ goesOn retryable hasBodyStream maxAtt (trace.length + 0) o →
        ∃ res new last,
          some ({ err := o.err, st := o.st, trace := trace ++ [o] } : DoCopyResult) = some res ∧
          res.trace = trace ++ new ++ [last] ∧ res.err = last.err ∧ res.st = last.st ∧
          (∀ j o, new[j]? = some o →
            goesOn retryable hasBodyStream maxAtt (trace.length + j) o) ∧
          ¬ goesOn retryable hasBodyStream maxAtt (trace.length + new.length) last ∧
          chained exchange trace.length s (new ++ [last]) := by
      intro hno
      refine ⟨_, [], o, rfl, by simp, rfl, rfl, ?_, hno, ?_⟩
      · intro j o' h
        simp at h
      · simp [chained, ho]
    rw [DoCopyLoop]
    simp only [ho]
    by_cases h1 : o.err = none ∨ o.retry = false
    · rw [if_pos h1]
      apply stop
      intro hg
      rcases h1 with h1 | h1
      · exact hg.1 h1
      · rw [hg.2.1] at h1
        exact Bool.noConfusion h1
    rw [if_neg h1]
    by_cases h2 : hasBodyStream = true
    · rw [if_pos h2]
      apply stop
      intro hg
      rw [hg.2.2.1] at h2
      exact Bool.noConfusion h2
    rw [if_neg h2]
    by_cases h3 : retryable o.st.req = false ∧ o.err ≠ some Err.EOF
    · rw [if_pos h3]
      apply stop
      intro hg
      rcases hg.2.2.2.1 with h | h
      · rw [h3.1] at h
        exact Bool.noConfusion h
      · exact h3.2 h
    rw [if_neg h3]
    by_cases h4 : (trace.length : Int) + 1 ≥ maxAtt
    · simp only [h4, if_true]
      apply stop
      intro hg
      have := hg.2.2.2.2
      simp only [Nat.add_zero] at this
      omega
    simp only [h4, if_false]
    have hlen : ((trace ++ [o]).length : Int) = (trace.length : Int) + 1 := by simp
    obtain ⟨res, new, last, hres, ht, he, hs, hgo, hlast, hch⟩ :=
      ih (trace ++ [o]) o.st (by rw [hlen]; omega)
    rw [hlen] at hres
    have hgo0 : goesOn retryable hasBodyStream maxAtt (trace.length + 0) o := by
      refine ⟨fun h => h1 (Or.inl h), ?_, ?_, ?_, ?_⟩
      · cases hr : o.retry with
        | true => rfl
        | false => exact absurd (Or.inr hr) h1
      · cases hb : hasBodyStream with
        | true => exact absurd hb h2
        | false => rfl
      · by_cases hq : retryable o.st.req = true
        · exact Or.inl hq
        · refine Or.inr ?_
          by_contra hne
          exact h3 ⟨by simpa using hq, hne⟩
      · simp only [Nat.add_zero]
        omega
    refine ⟨res, o :: new, last, hres, by simp [ht], he, hs, ?_, ?_, ?_⟩
    · intro j o' hj
      cases j with
      | zero =>
        simp at hj
        subst hj
        exact hgo0
      | succ j =>
        simp only [List.getElem?_cons_succ] at hj
        have := hgo j o' hj
        simp only [List.length_append, List.length_singleton] at this
        rw [show trace.length + (j + 1) = trace.length + 1 + j by omega]
        exact this
    · simp only [List.length_append, List.length_singleton, List.length_cons] at hlast ⊢
      rw [show trace.length + (new.length + 1) = trace.length + 1 + new.length by omega]
      exact hlast
    · simp only [List.cons_append, chained, ho, true_and]
      simpa using hch

/-- The method `DoCopy` over an exchange function that always returns. -/
theorem DoCopyWith_spec (pkg : Pkg) (c : HostClient)
    (exchange : Nat → Session → Option (Outcome Session))
    (htot : ∀ i s, ∃ o, exchange i s = some o) (s : Session) :
    ∃ res new last,
      DoCopyWith pkg c exchange s = some res ∧
      res.trace = new ++ [last] ∧
      res.err = (if last.err = some Err.EOF then some Err.ErrConnectionClosed else last.err) ∧
      res.st = { last.st with pendingRequests := last.st.pendingRequests - 1 } ∧
      (∀ j o, new[j]? = some o →
        goesOn (isRequestRetryable pkg c) s.req.IsBodyStream (maxAttempts pkg c) j o) ∧
      ¬ goesOn (isRequestRetryable pkg c) s.req.IsBodyStream (maxAttempts pkg c)
          new.length last ∧
      chained exchange 0 { s with pendingRequests := s.pendingRequests + 1 }
        (new ++ [last]) := by
  obtain ⟨res, new, last, hres, ht, he, hs, hgo, hlast, hch⟩ :=
    DoCopyLoop_spec exchange htot (isRequestRetryable pkg c) s.req.IsBodyStream
      (maxAttempts pkg c) ((maxAttempts pkg c).toNat + 1) []
      { s with pendingRequests := s.pendingRequests + 1 } (by simp; omega)
  simp only [List.length_nil, Nat.cast_zero, List.nil_append, Nat.zero_add] at hres ht hgo hlast hch
  refine ⟨{ err := if res.err = some Err.EOF then some Err.ErrConnectionClosed else res.err,
             st := { res.st with pendingRequests := res.st.pendingRequests - 1 },
             trace := res.trace }, new, last, ?_, ht, ?_, ?_, hgo, hlast, hch⟩
  · simp only [DoCopyWith, hres]
  · simp only [he]
  · simp only [hs]

/-! ## Totality of the exchange -/

theorem readBodyCopy_ne_none (r : Reader) (contentLength : Int) (w : Writer) :
    readBodyCopy r contentLength w ≠ none := by
  obtain ⟨res, hres⟩ := readBodyCopy_total r contentLength w
  rw [hres]
  exact Option.some_ne_none res

theorem doBodyCopy_total (pkg : Pkg) (resp : Response) (a : Attempt) (m : Int) (w : Writer) :
    ∃ b, resp.doBodyCopy pkg a m w = some b := by
  unfold Response.doBodyCopy
  simp only
  repeat' split
  all_goals first
    | exact ⟨_, rfl⟩
    | exact absurd ‹readBodyCopy _ _ _ = none› (readBodyCopy_ne_none _ _ _)

theorem doBodyCopy_ne_none (pkg : Pkg) (resp : Response) (a : Attempt) (m : Int) (w : Writer) :
    resp.doBodyCopy pkg a m w ≠ none := by
  obtain ⟨b, hb⟩ := doBodyCopy_total pkg resp a m w
  rw [hb]
  exact Option.some_ne_none b

theorem doNonNilReqRespCopy_total (pkg : Pkg) (c : HostClient) (a : Attempt) (s : Call) :
    ∃ o, doNonNilReqRespCopy pkg c a s = some o := by
  unfold doNonNilReqRespCopy
  simp only
  repeat' split
  all_goals first
    | exact ⟨_, rfl⟩
    | exact absurd ‹Response.doBodyCopy _ _ _ _ _ = none› (doBodyCopy_ne_none _ _ _ _ _)

theorem doNonNilReqRespCopy_ne_none (pkg : Pkg) (c : HostClient) (a : Attempt) (s : Call) :
    doNonNilReqRespCopy pkg c a s ≠ none := by
  obtain ⟨b, hb⟩ := doNonNilReqRespCopy_total pkg c a s
  rw [hb]
  exact Option.some_ne_none b

/-- The method `doCopy` returns for every attempt and every state of the objects. -/
theorem doCopy_total (pkg : Pkg) (c : HostClient) (a : Attempt) (s : Session) :
    ∃ o, doCopy pkg c a s = some o := by
  unfold doCopy
  simp only
  split
  · rename_i h
    exact absurd h (doNonNilReqRespCopy_ne_none _ _ _ _)
  · exact ⟨_, rfl⟩

/-- The method `DoCopy` returns; the last exchange is the first one after which the loop
does not go on, and `DoCopy` returns the error of that exchange, `io.EOF` replaced by
`ErrConnectionClosed`. -/
theorem DoCopy_spec (pkg : Pkg) (c : HostClient) (net : Nat → Attempt) (s : Session) :
    ∃ res new last,
      DoCopy pkg c net s = some res ∧
      res.trace = new ++ [last] ∧
      res.err = (if last.err = some Err.EOF then some Err.ErrConnectionClosed else last.err) ∧
      res.st = { last.st with pendingRequests := last.st.pendingRequests - 1 } ∧
      (∀ j o, new[j]? = some o →
        goesOn (isRequestRetryable pkg c) s.req.IsBodyStream (maxAttempts pkg c) j o) ∧
      ¬ goesOn (isRequestRetryable pkg c) s.req.IsBodyStream (maxAttempts pkg c)
          new.length last ∧
      chained (fun i s => doCopy pkg c (net i) s) 0
        { s with pendingRequests := s.pendingRequests + 1 } (new ++ [last]) :=
  DoCopyWith_spec pkg c (fun i s => doCopy pkg c (net i) s)
    (fun i s => doCopy_total pkg c (net i) s) s

/-! ## Retry policy -/

theorem getElem?_snoc_cases {α : Type} (new : List α) (last : α) (i : Nat) (o : α)
    (h : (new ++ [last])[i]? = some o) :
    new[i]? = some o ∨ (i = new.length ∧ o = last) := by
  by_cases hi : i < new.length
  · left
    rw [List.getElem?_append_left hi] at h
    exact h
  · right
    rw [List.getElem?_append_right (not_lt.mp hi)] at h
    cases hk : i - new.length with
    | zero =>
      rw [hk] at h
      simp at h
      exact ⟨by omega, h.symm⟩
    | succ k =>
      rw [hk] at h
      simp at h

theorem maxAttempts_pos (pkg : Pkg) (c : HostClient)
    (hD : 0 < pkg.DefaultMaxIdemponentCallAttempts) : 0 < maxAttempts pkg c := by
  unfold maxAttempts
  split
  · exact hD
  · omega

/-- The code on the case of C6: a GET request without user agent and without body stream,
a `RetryIf` that accepts a request exactly when it carries no user agent (so it accepts
this request), attempt cap 3, and every exchange fails to write the request, a retryable
error. The first exchange stores the client name in the user agent (lines 197-200) before
the write fails; line 106 then asks the predicate about the request as it is now, the
predicate rejects it, and `DoCopy` returns after one exchange, not three. -/
theorem DoCopy_accepted_request_single_exchange :
    isRequestRetryable pkg0 clientRetryIfNoUserAgent requestNoUA = true ∧
    requestNoUA.IsBodyStream = false ∧
    maxAttempts pkg0 clientRetryIfNoUserAgent = 3 ∧
    (DoCopy pkg0 clientRetryIfNoUserAgent attemptWriteFails (sessionFor requestNoUA none)).map
      (fun r => (r.calls, r.err,
        r.trace.map (fun o => (o.retry, o.err, o.st.req.Header.userAgent,
          isRequestRetryable pkg0 clientRetryIfNoUserAgent o.st.req)))) =
      some (1, some (Err.other 1), [(true, some (Err.other 1), [99], false)]) ∧
    ¬ ∃ res, DoCopy pkg0 clientRetryIfNoUserAgent attemptWriteFails
        (sessionFor requestNoUA none) = some res ∧
      (res.calls : Int) = maxAttempts pkg0 clientRetryIfNoUserAgent := by
  refine ⟨by decide, by decide, by decide, by rfl, ?_⟩
  rintro ⟨res, hres, hcalls⟩
  have hev : (DoCopy pkg0 clientRetryIfNoUserAgent attemptWriteFails
      (sessionFor requestNoUA none)).map (fun r => r.calls) = some 1 := by
    rfl
  have hmax : maxAttempts pkg0 clientRetryIfNoUserAgent = 3 := by decide
  rw [hres] at hev
  simp only [Option.map_some', Option.some.injEq] at hev
  rw [hev, hmax] at hcalls
  exact absurd hcalls (by decide)

/-- C6, as the code has it. Attempt cap: with `maxAttempts` equal to
`MaxIdemponentCallAttempts` when that is positive and to
`DefaultMaxIdemponentCallAttempts` (a positive constant) otherwise, for
every exchange function that returns (in particular `c.doCopy`, for which `DoCopy` is
`DoCopyWith`) and so for every sequence of exchange outcomes, `DoCopy` returns after
invoking the exchange at least once and at most `maxAttempts` times; and for a request
without body stream, if every exchange made fails with a retryable error and the retry
predicate, asked after that exchange (line 106), accepts the request as that exchange
leaves it, the exchange is invoked exactly `maxAttempts` times. -/
theorem DoCopy_attempt_cap (pkg : Pkg) (c : HostClient)
    (exchange : Nat → Session → Option (Outcome Session))
    (htot : ∀ i s, ∃ o, exchange i s = some o) (s : Session)
    (hD : 0 < pkg.DefaultMaxIdemponentCallAttempts) :
    ∃ res, DoCopyWith pkg c exchange s = some res ∧
      1 ≤ res.calls ∧ (res.calls : Int) ≤ maxAttempts pkg c ∧
      (s.req.IsBodyStream = false →
        (∀ o ∈ res.trace, o.retry = true ∧ o.err ≠ none ∧
          isRequestRetryable pkg c o.st.req = true) →
        (res.calls : Int) = maxAttempts pkg c) := by
  obtain ⟨res, new, last, hres, ht, _, _, hgo, hlast, _⟩ :=
    DoCopyWith_spec pkg c exchange htot s
  have hpos := maxAttempts_pos pkg c hD
  have hcalls : res.calls = new.length + 1 := by simp [DoCopyResult.calls, ht]
  have hle : (res.calls : Int) ≤ maxAttempts pkg c := by
    rw [hcalls]
    cases hn : new.length with
    | zero =>
      push_cast
      omega
    | succ k =>
      have hk : k < new.length := by omega
      have := (hgo k new[k] (List.getElem?_eq_getElem hk)).2.2.2.2
      push_cast
      omega
  refine ⟨res, hres, by omega, hle, ?_⟩
  intro hbs hall
  obtain ⟨h1, h2, h3⟩ := hall last (by simp [ht])
  have hnot : ¬ ((new.length : Int) + 1 < maxAttempts pkg c) :=
    fun h => hlast ⟨h2, h1, hbs, Or.inl h3, h⟩
  rw [hcalls] at hle ⊢
  push_cast at hle ⊢
  omega

/-- The code on the case of C7: a GET request without user agent and without body stream,
a `RetryIf` that accepts a request exactly when it carries a user agent (so it rejects
this request), attempt cap 3, and every exchange fails to write the request, a retryable
error other than `io.EOF`. The first exchange stores the client name in the user agent
(lines 197-200) before the write fails; line 106 then asks the predicate about the request
as it is now, the predicate accepts it, and `DoCopy` makes three exchanges, not one. -/
theorem DoCopy_rejected_request_resent :
    isRequestRetryable pkg0 clientRetryIfUserAgent requestNoUA = false ∧
    requestNoUA.IsBodyStream = false ∧
    maxAttempts pkg0 clientRetryIfUserAgent = 3 ∧
    (DoCopy pkg0 clientRetryIfUserAgent attemptWriteFails (sessionFor requestNoUA none)).map
      (fun r => (r.calls, r.err,
        r.trace.map (fun o => (o.retry, o.err, o.st.req.Header.userAgent,
          isRequestRetryable pkg0 clientRetryIfUserAgent o.st.req)))) =
      some (3, some (Err.other 1),
        [(true, some (Err.other 1), [99], true), (true, some (Err.other 1), [99], true),
         (true, some (Err.other 1), [99], true)]) ∧
    ¬ ∃ res, DoCopy pkg0 clientRetryIfUserAgent attemptWriteFails
        (sessionFor requestNoUA none) = some res ∧ res.calls = 1 := by
  refine ⟨by decide, by decide, by decide, by rfl, ?_⟩
  rintro ⟨res, hres, hcalls⟩
  have hev : (DoCopy pkg0 clientRetryIfUserAgent attemptWriteFails
      (sessionFor requestNoUA none)).map (fun r => r.calls) = some 3 := by
    rfl
  rw [hres] at hev
  simp only [Option.map_some', Option.some.injEq] at hev
  omega

/-- C7, as the code has it. Idempotency gating: for a request without body stream and
every exchange function that returns (in particular `c.doCopy`), `DoCopy` returns, and for
every exchange it made that failed with a retryable error: if the error is not `io.EOF`
and the retry predicate (`RetryIf` when set, otherwise `isIdempotent`), asked after that
exchange (line 106), rejects the request as that exchange leaves it, that exchange is the
last one and `DoCopy` returns its error (a first failure of this kind gives exactly one
exchange); if the error is `io.EOF` and the attempt cap is not reached, another exchange
follows. -/
theorem DoCopy_idempotency_gating (pkg : Pkg) (c : HostClient)
    (exchange : Nat → Session → Option (Outcome Session))
    (htot : ∀ i s, ∃ o, exchange i s = some o) (s : Session)
    (hbs : s.req.IsBodyStream = false) :
    ∃ res, DoCopyWith pkg c exchange s = some res ∧
      ∀ (i : Nat) (o : Outcome Session), res.trace[i]? = some o → o.retry = true →
        (∀ e, o.err = some e → e ≠ Err.EOF → isRequestRetryable pkg c o.st.req = false →
          i + 1 = res.calls ∧ res.err = some e) ∧
        (o.err = some Err.EOF → (i : Int) + 1 < maxAttempts pkg c → i + 1 < res.calls) := by
  obtain ⟨res, new, last, hres, ht, he, _, hgo, hlast, _⟩ :=
    DoCopyWith_spec pkg c exchange htot s
  have hcalls : res.calls = new.length + 1 := by simp [DoCopyResult.calls, ht]
  refine ⟨res, hres, ?_⟩
  intro i o hio hretry
  rw [ht] at hio
  rcases getElem?_snoc_cases new last i o hio with hin | ⟨hi, ho⟩
  · have hg := hgo i o hin
    have hilt : i < new.length := by
      by_contra hge
      rw [List.getElem?_eq_none (not_lt.mp hge)] at hin
      exact Option.noConfusion hin
    refine ⟨?_, fun _ _ => by omega⟩
    intro e hoe hne hrej
    rcases hg.2.2.2.1 with h | h
    · rw [hrej] at h
      exact Bool.noConfusion h
    · rw [hoe] at h
      exact absurd (Option.some.inj h) hne
  · subst ho
    refine ⟨?_, ?_⟩
    · intro e hoe hne _
      refine ⟨by omega, ?_⟩
      rw [he, hoe, if_neg (fun h => hne (Option.some.inj h))]
    · intro hoe hcap
      exfalso
      apply hlast
      refine ⟨by rw [hoe]; exact Option.some_ne_none _, hretry, hbs, Or.inr hoe, ?_⟩
      rw [← hi]
      exact hcap

/-- C9. A request whose body is a live stream is never retried: for every client
configuration, every retry predicate and every exchange function that returns (in
particular `c.doCopy`), whatever the first exchange returns, `DoCopy` returns after
invoking the exchange exactly once. -/
theorem DoCopy_body_stream (pkg : Pkg) (c : HostClient)
    (exchange : Nat → Session → Option (Outcome Session))
    (htot : ∀ i s, ∃ o, exchange i s = some o) (s : Session)
    (hbs : s.req.IsBodyStream = true) :
    ∃ res, DoCopyWith pkg c exchange s = some res ∧ res.calls = 1 := by
  obtain ⟨res, new, last, hres, ht, _, _, hgo, _, _⟩ := DoCopyWith_spec pkg c exchange htot s
  refine ⟨res, hres, ?_⟩
  cases new with
  | nil => simp [DoCopyResult.calls, ht]
  | cons o os =>
    have h := (hgo 0 o (by simp)).2.2.1
    rw [hbs] at h
    exact Bool.noConfusion h

theorem DoCopy_attempt_cap_witness :
    ∃ res, DoCopy pkg0 client0 attemptWriteFails (sessionOf [71, 69, 84] false none)
        = some res ∧
      (res.calls : Int) = maxAttempts pkg0 client0 := by
  obtain ⟨res, hres, _, _, h⟩ :=
    DoCopy_attempt_cap pkg0 client0 (fun i s => doCopy pkg0 client0 (attemptWriteFails i) s)
      (fun i s => doCopy_total pkg0 client0 (attemptWriteFails i) s)
      (sessionOf [71, 69, 84] false none) (by decide)
  have hres : DoCopy pkg0 client0 attemptWriteFails (sessionOf [71, 69, 84] false none)
      = some res := hres
  have hev : (DoCopy pkg0 client0 attemptWriteFails (sessionOf [71, 69, 84] false none)).map
      (fun r => r.trace.map
        (fun o => (o.retry, o.err, isRequestRetryable pkg0 client0 o.st.req))) =
      some [(true, some (Err.other 1), true), (true, some (Err.other 1), true),
        (true, some (Err.other 1), true)] := by
    decide
  rw [hres] at hev
  simp only [Option.map_some', Option.some.injEq] at hev
  refine ⟨res, hres, h (by decide) ?_⟩
  intro o ho
  have hm := List.mem_map_of_mem
    (fun o : Outcome Session => (o.retry, o.err, isRequestRetryable pkg0 client0 o.st.req)) ho
  rw [hev] at hm
  simp only [List.mem_cons, Prod.mk.injEq, List.mem_singleton, or_self, List.not_mem_nil,
    or_false] at hm
  exact ⟨hm.1, by rw [hm.2.1]; exact Option.some_ne_none _, hm.2.2⟩

theorem DoCopy_idempotency_gating_witness :
    (∃ res, DoCopy pkg0 client0 attemptWriteFails (sessionOf [80, 79, 83, 84] false none)
        = some res ∧ 0 + 1 = res.calls ∧ res.err = some (Err.other 1)) ∧
    (∃ res, DoCopy pkg0 client0 (fun i => if i = 0 then attemptNoResponse 0 else attemptBody i 0 [])
        (sessionOf [80, 79, 83, 84] false none) = some res ∧ 0 + 1 < res.calls) := by
  constructor
  · obtain ⟨res, hres, h⟩ :=
      DoCopy_idempotency_gating pkg0 client0
        (fun i s => doCopy pkg0 client0 (attemptWriteFails i) s)
        (fun i s => doCopy_total pkg0 client0 (attemptWriteFails i) s)
        (sessionOf [80, 79, 83, 84] false none) rfl
    have hres : DoCopy pkg0 client0 attemptWriteFails (sessionOf [80, 79, 83, 84] false none)
        = some res := hres
    have hev : (DoCopy pkg0 client0 attemptWriteFails
        (sessionOf [80, 79, 83, 84] false none)).map
        (fun r => r.trace.map
          (fun o => (o.retry, o.err, isRequestRetryable pkg0 client0 o.st.req))) =
        some [(true, some (Err.other 1), false)] := by
      decide
    rw [hres] at hev
    simp only [Option.map_some', Option.some.injEq] at hev
    cases hT : res.trace with
    | nil =>
      rw [hT] at hev
      simp at hev
    | cons o rest =>
      rw [hT] at hev
      simp only [List.map_cons, List.cons.injEq, Prod.mk.injEq] at hev
      obtain ⟨⟨h1, h2, h3⟩, _⟩ := hev
      exact ⟨res, hres, (h 0 o (by rw [hT]; simp) h1).1 (Err.other 1) h2 (by decide) h3⟩
  · obtain ⟨res, hres, h⟩ :=
      DoCopy_idempotency_gating pkg0 client0
        (fun i s => doCopy pkg0 client0
          ((fun i => if i = 0 then attemptNoResponse 0 else attemptBody i 0 []) i) s)
        (fun i s => doCopy_total pkg0 client0 _ s)
        (sessionOf [80, 79, 83, 84] false none) rfl
    have hres : DoCopy pkg0 client0
        (fun i => if i = 0 then attemptNoResponse 0 else attemptBody i 0 [])
        (sessionOf [80, 79, 83, 84] false none) = some res := hres
    have hev : (DoCopy pkg0 client0
        (fun i => if i = 0 then attemptNoResponse 0 else attemptBody i 0 [])
        (sessionOf [80, 79, 83, 84] false none)).map
        (fun r => r.trace.map (fun o => (o.retry, o.err))) =
        some [(true, some Err.EOF), (false, none)] := by
      decide
    rw [hres] at hev
    simp only [Option.map_some', Option.some.injEq] at hev
    cases hT : res.trace with
    | nil =>
      rw [hT] at hev
      simp at hev
    | cons o rest =>
      rw [hT] at hev
      simp only [List.map_cons, List.cons.injEq, Prod.mk.injEq] at hev
      obtain ⟨⟨h1, h2⟩, _⟩ := hev
      exact ⟨res, hres, (h 0 o (by rw [hT]; simp) h1).2 h2 (by decide)⟩

theorem DoCopy_body_stream_witness :
    ∃ res, DoCopy pkg0 client0 attemptWriteFails (sessionOf [71, 69, 84] true none)
        = some res ∧ res.calls = 1 :=
  DoCopy_body_stream pkg0 client0 (fun i s => doCopy pkg0 client0 (attemptWriteFails i) s)
    (fun i s => doCopy_total pkg0 client0 (attemptWriteFails i) s)
    (sessionOf [71, 69, 84] true none) rfl

/-- C8, the code at a concrete input. A POST request (the retry predicate rejects it)
whose first exchange receives the chunked body `"3\r\nfoo"` and then the end of the
stream: the three payload bytes reach the sink, the boundary read of `copyBodyChunked`
returns `io.EOF` unchanged, `doNonNilReqRespCopy` returns `(true, io.EOF)`, and `DoCopy`
makes a second exchange, after which the sink holds `"foofoo"`. -/
theorem DoCopy_retries_after_response_bytes :
    isRequestRetryable pkg0 client0 (requestOf [80, 79, 83, 84] false) = false ∧
    (DoCopy pkg0 client0
        (fun i => if i = 0 then attemptBody 0 (-1) [51, 13, 10, 102, 111, 111]
          else attemptBody i (-1) [51, 13, 10, 102, 111, 111, 13, 10, 48, 13, 10, 13, 10])
        (sessionOf [80, 79, 83, 84] false none)).map
      (fun r => (r.calls, r.err, r.trace.map Outcome.view)) =
    some (2, none,
      [(true, some Err.EOF, [102, 111, 111],
          [Event.acquireConn 0, Event.doBodyCopy true (some Err.EOF), Event.closeConn 0]),
       (false, none, [102, 111, 111, 102, 111, 111],
          [Event.acquireConn 1, Event.doBodyCopy true none, Event.releaseConn 1])]) := by
  refine ⟨by decide, ?_⟩
  rfl

/-! ## Errors of the body transport in the exchange -/

theorem chained_getElem (exchange : Nat → Session → Option (Outcome Session))
    (os : List (Outcome Session)) :
    ∀ (i : Nat) (s : Session) (j : Nat) (o : Outcome Session),
      chained exchange i s os → os[j]? = some o → ∃ s1, exchange (i + j) s1 = some o := by
  induction os with
  | nil =>
    intro i s j o _ h
    simp at h
  | cons a os ih =>
    intro i s j o hch h
    obtain ⟨h0, hrest⟩ := hch
    cases j with
    | zero =>
      simp at h
      subst h
      exact ⟨s, h0⟩
    | succ j =>
      simp only [List.getElem?_cons_succ] at h
      obtain ⟨s1, hs1⟩ := ih (i + 1) a.st j o hrest h
      exact ⟨s1, by rw [show i + (j + 1) = i + 1 + j by omega]; exact hs1⟩

/-- An exchange in which `doBodyCopy` returned the error `e`: the connection is closed
last, the exchange returns `e`, and it asks for a retry unless `e` is `ErrBodyTooLarge`. -/
theorem doNonNilReqRespCopy_bodyCopy_error (pkg : Pkg) (c : HostClient) (a : Attempt)
    (s : Call) (o : Outcome Call) (h : doNonNilReqRespCopy pkg c a s = some o)
    (engine : Bool) (e : Err) (hev : Event.doBodyCopy engine (some e) ∈ o.events) :
    o.err = some e ∧ o.retry = decide (e ≠ Err.ErrBodyTooLarge) ∧
      o.events.getLast? = some (Event.closeConn a.conn) := by
  unfold doNonNilReqRespCopy at h
  simp only at h
  repeat' split at h
  all_goals first
    | exact absurd h Option.noConfusion
    | (simp only [Option.some.injEq] at h
       subst h
       simp at hev)
  all_goals
    obtain ⟨_, he⟩ := hev
    first
      | (rw [← he]
         simp
         done)
      | simp_all

theorem doCopy_bodyCopy_error (pkg : Pkg) (c : HostClient) (a : Attempt) (s : Session)
    (o : Outcome Session) (h : doCopy pkg c a s = some o)
    (engine : Bool) (e : Err) (hev : Event.doBodyCopy engine (some e) ∈ o.events) :
    o.err = some e ∧ o.retry = decide (e ≠ Err.ErrBodyTooLarge) ∧
      o.events.getLast? = some (Event.closeConn a.conn) := by
  unfold doCopy at h
  simp only at h
  split at h
  · exact absurd h (Option.noConfusion)
  · rename_i o1 ho1
    simp only [Option.some.injEq] at h
    subst h
    exact doNonNilReqRespCopy_bodyCopy_error pkg c a _ o1 ho1 engine e hev

/-- C10. A body-too-large error is never retried. First, for every exchange in which
`resp.doBodyCopy` fails with an error `e`: `doNonNilReqRespCopy` returns, the call it
makes last is `closeConn` on the connection of the exchange, the error returned is `e`,
and `retry` is false when `e` is `ErrBodyTooLarge` and true for every other `e`. Second,
for every request and every attempt cap, `DoCopy` returns, and an exchange in which
`doBodyCopy` failed with `ErrBodyTooLarge` is the last one it makes, and `DoCopy` returns
`ErrBodyTooLarge`. -/
theorem DoCopy_body_too_large (pkg : Pkg) (c : HostClient) (net : Nat → Attempt)
    (s : Session) :
    (∀ (a : Attempt) (call : Call), ∃ o, doNonNilReqRespCopy pkg c a call = some o ∧
      ∀ (engine : Bool) (e : Err), Event.doBodyCopy engine (some e) ∈ o.events →
        o.events.getLast? = some (Event.closeConn a.conn) ∧ o.err = some e ∧
        (e = Err.ErrBodyTooLarge → o.retry = false) ∧
        (e ≠ Err.ErrBodyTooLarge → o.retry = true)) ∧
    (∃ res, DoCopy pkg c net s = some res ∧
      ∀ (i : Nat) (o : Outcome Session) (engine : Bool), res.trace[i]? = some o →
        Event.doBodyCopy engine (some Err.ErrBodyTooLarge) ∈ o.events →
        o.events.getLast? = some (Event.closeConn (net i).conn) ∧
        i + 1 = res.calls ∧ res.err = some Err.ErrBodyTooLarge) := by
  constructor
  · intro a call
    obtain ⟨o, ho⟩ := doNonNilReqRespCopy_total pkg c a call
    refine ⟨o, ho, ?_⟩
    intro engine e hev
    obtain ⟨h1, h2, h3⟩ := doNonNilReqRespCopy_bodyCopy_error pkg c a call o ho engine e hev
    refine ⟨h3, h1, ?_, ?_⟩
    · intro he
      rw [h2]
      simp [he]
    · intro he
      rw [h2]
      simp [he]
  · obtain ⟨res, new, last, hres, ht, he, _, hgo, _, hch⟩ := DoCopy_spec pkg c net s
    have hcalls : res.calls = new.length + 1 := by simp [DoCopyResult.calls, ht]
    refine ⟨res, hres, ?_⟩
    intro i o engine hio hev
    rw [ht] at hio
    obtain ⟨s1, hs1⟩ := chained_getElem _ _ 0 _ i o hch hio
    rw [Nat.zero_add] at hs1
    obtain ⟨h1, h2, h3⟩ :=
      doCopy_bodyCopy_error pkg c (net i) s1 o hs1 engine Err.ErrBodyTooLarge hev
    have hretry : o.retry = false := by
      rw [h2]
      decide
    rcases getElem?_snoc_cases new last i o hio with hin | ⟨hi, ho⟩
    · have hg := (hgo i o hin).2.1
      rw [hretry] at hg
      exact Bool.noConfusion hg
    · subst ho
      refine ⟨h3, by omega, ?_⟩
      rw [he, h1]
      decide

theorem DoCopy_body_too_large_witness :
    ∃ res, DoCopy pkg0 client0 (fun i => attemptBody i 5 [104, 101, 108, 108, 111])
        (sessionOf [71, 69, 84] false (some 2)) = some res ∧
      0 + 1 = res.calls ∧ res.err = some Err.ErrBodyTooLarge := by
  obtain ⟨res, hres, h⟩ :=
    (DoCopy_body_too_large pkg0 client0 (fun i => attemptBody i 5 [104, 101, 108, 108, 111])
      (sessionOf [71, 69, 84] false (some 2))).2
  have hev : (DoCopy pkg0 client0 (fun i => attemptBody i 5 [104, 101, 108, 108, 111])
      (sessionOf [71, 69, 84] false (some 2))).map (fun r => r.trace.map Outcome.view) =
      some [(false, some Err.ErrBodyTooLarge, [104, 101],
        [Event.acquireConn 0, Event.doBodyCopy true (some Err.ErrBodyTooLarge),
          Event.closeConn 0])] := by
    rfl
  rw [hres] at hev
  simp only [Option.map_some', Option.some.injEq] at hev
  cases hT : res.trace with
  | nil =>
    rw [hT] at hev
    simp at hev
  | cons o rest =>
    rw [hT] at hev
    simp only [List.map_cons, List.cons.injEq, Outcome.view, Prod.mk.injEq] at hev
    obtain ⟨⟨_, _, _, h4⟩, _⟩ := hev
    exact ⟨res, hres, (h 0 o true (by rw [hT]; simp) (by rw [h4]; simp)).2⟩

/-! ## What `DoCopy` returns -/

/-- C11. Result of `DoCopy`: for every exchange function that returns (in particular
`c.doCopy`), and so for every sequence of exchange outcomes, `DoCopy` returns the error of
the last exchange it made, unchanged except that `io.EOF` is replaced by
`ErrConnectionClosed`; the result is nil exactly when that exchange returned nil, and it
is never `io.EOF`. -/
theorem DoCopy_result (pkg : Pkg) (c : HostClient)
    (exchange : Nat → Session → Option (Outcome Session))
    (htot : ∀ i s, ∃ o, exchange i s = some o) (s : Session) :
    ∃ res last, DoCopyWith pkg c exchange s = some res ∧
      res.trace.getLast? = some last ∧
      res.err = (if last.err = some Err.EOF then some Err.ErrConnectionClosed
                 else last.err) ∧
      (res.err = none ↔ last.err = none) ∧
      res.err ≠ some Err.EOF := by
  obtain ⟨res, new, last, hres, ht, he, _, _, _, _⟩ := DoCopyWith_spec pkg c exchange htot s
  refine ⟨res, last, hres, by simp [ht], he, ?_, ?_⟩
  · rw [he]
    by_cases h : last.err = some Err.EOF
    · simp [h]
    · simp [h]
  · rw [he]
    by_cases h : last.err = some Err.EOF
    · simp [h]
    · simp [h]

theorem DoCopy_result_witness :
    ∃ res last, DoCopy pkg0 client0 attemptNoResponse (sessionOf [80, 79, 83, 84] false none)
        = some res ∧
      res.trace.getLast? = some last ∧
      res.err = (if last.err = some Err.EOF then some Err.ErrConnectionClosed
                 else last.err) ∧
      (res.err = none ↔ last.err = none) ∧
      res.err ≠ some Err.EOF :=
  DoCopy_result pkg0 client0 (fun i s => doCopy pkg0 client0 (attemptNoResponse i) s)
    (fun i s => doCopy_total pkg0 client0 (attemptNoResponse i) s)
    (sessionOf [80, 79, 83, 84] false none)

/-- Three exchanges of a POST request that each end with the peer closing the connection
before any response: `DoCopy` returns `ErrConnectionClosed`. -/
theorem DoCopy_connection_closed :
    (DoCopy pkg0 client0 attemptNoResponse (sessionOf [80, 79, 83, 84] false none)).map
      (fun r => (r.calls, r.err, r.trace.map (fun o => o.err))) =
    some (3, some Err.ErrConnectionClosed,
      [some Err.EOF, some Err.EOF, some Err.EOF]) := by
  rfl

/-! ## The request during an exchange -/

theorem applyPathNormalizing_fields (c : HostClient) (req : Request) :
    (applyPathNormalizing c req).Header = req.Header ∧
    (applyPathNormalizing c req).uri.scheme = req.uri.scheme ∧
    (applyPathNormalizing c req).bodyStream = req.bodyStream ∧
    (applyPathNormalizing c req).timeout = req.timeout ∧
    (applyPathNormalizing c req).uri.DisablePathNormalizing =
      (c.DisablePathNormalizing || req.uri.DisablePathNormalizing) := by
  unfold applyPathNormalizing
  cases hc : c.DisablePathNormalizing <;> simp

theorem writeRequest_fields (pkg : Pkg) (c : HostClient) (a : Attempt) (req : Request) :
    (writeRequest pkg c a req).uri = req.uri ∧
    (writeRequest pkg c a req).bodyStream = req.bodyStream ∧
    (writeRequest pkg c a req).timeout = req.timeout ∧
    (writeRequest pkg c a req).Header.method = req.Header.method ∧
    (writeRequest pkg c a req).Header.connectionClose = req.Header.connectionClose ∧
    (writeRequest pkg c a req).Header.userAgent =
      (if req.Header.userAgent.length = 0 then pkg.getClientName c
       else req.Header.userAgent) := by
  unfold writeRequest
  cases hr : resetConnection c a req with
  | false =>
    simp only [Bool.false_eq_true, if_false, RequestHeader.UserAgent, Request.Write]
    by_cases hu : req.Header.userAgent.length = 0 <;> simp [hu]
  | true =>
    have hcc : req.Header.connectionClose = false := by
      unfold resetConnection at hr
      simp only [decide_eq_true_eq] at hr
      exact hr.2.2
    simp only [if_true, RequestHeader.UserAgent, Request.SetConnectionClose,
      RequestHeader.ResetConnectionClose, Request.Write]
    by_cases hu : req.Header.userAgent.length = 0 <;> simp [hu, hcc]

/-- The request after an exchange: as it was when the scheme check fails; with the path
normalizing flag applied when acquiring or setting the write deadline fails; and as
written otherwise. -/
theorem doNonNilReqRespCopy_req (pkg : Pkg) (c : HostClient) (a : Attempt) (s : Call)
    (o : Outcome Call) (h : doNonNilReqRespCopy pkg c a s = some o) :
    (c.IsTLS ≠ decide (s.req.uri.scheme = strHTTPS) ∧ o.st.req = s.req) ∨
    (c.IsTLS = decide (s.req.uri.scheme = strHTTPS) ∧
      (a.acquireErr ≠ none ∨ (c.WriteTimeout > 0 ∧ a.writeDeadlineErr ≠ none)) ∧
      o.st.req = applyPathNormalizing c s.req) ∨
    (c.IsTLS = decide (s.req.uri.scheme = strHTTPS) ∧ a.acquireErr = none ∧
      ¬ (c.WriteTimeout > 0 ∧ a.writeDeadlineErr ≠ none) ∧
      o.st.req = writeRequest pkg c a (applyPathNormalizing c s.req)) := by
  unfold doNonNilReqRespCopy at h
  simp only at h
  repeat' split at h
  all_goals first
    | exact absurd h Option.noConfusion
    | (simp only [Option.some.injEq] at h
       subst h
       simp_all)

theorem doCopy_req (pkg : Pkg) (c : HostClient) (a : Attempt) (s : Session)
    (o : Outcome Session) (h : doCopy pkg c a s = some o) :
    ∃ o1 : Outcome Call, ∃ resp,
      doNonNilReqRespCopy pkg c a { req := s.req, resp := resp, w := s.w } = some o1 ∧
      o.retry = o1.retry ∧ o.err = o1.err ∧ o.events = o1.events ∧ o.st.req = o1.st.req ∧
      o.st.w = o1.st.w := by
  unfold doCopy at h
  simp only at h
  split at h
  · exact absurd h Option.noConfusion
  · rename_i o1 ho1
    simp only [Option.some.injEq] at h
    subst h
    exact ⟨o1, _, ho1, rfl, rfl, rfl, rfl, rfl⟩

theorem doNonNilReqRespCopy_scheme (pkg : Pkg) (c : HostClient) (a : Attempt) (s : Call)
    (o : Outcome Call) (h : doNonNilReqRespCopy pkg c a s = some o) :
    o.st.req.uri.scheme = s.req.uri.scheme := by
  have hw := writeRequest_fields pkg c a (applyPathNormalizing c s.req)
  have hp := applyPathNormalizing_fields c s.req
  rcases doNonNilReqRespCopy_req pkg c a s o h with ⟨_, hr⟩ | ⟨_, _, hr⟩ | ⟨_, _, _, hr⟩
  · rw [hr]
  · rw [hr, hp.2.1]
  · rw [hr, hw.1, hp.2.1]

/-! ## Failure to acquire a connection -/

theorem doNonNilReqRespCopy_acquire_failure (pkg : Pkg) (c : HostClient) (a : Attempt)
    (s : Call) (o : Outcome Call) (e : Err)
    (h : doNonNilReqRespCopy pkg c a s = some o) (hacq : a.acquireErr = some e) :
    o.retry = false ∧ o.events = [] ∧ o.st.w = s.w ∧
      (c.IsTLS = decide (s.req.uri.scheme = strHTTPS) → o.err = some e) := by
  unfold doNonNilReqRespCopy at h
  simp only at h
  repeat' split at h
  all_goals first
    | exact absurd h Option.noConfusion
    | (simp only [Option.some.injEq] at h
       subst h
       simp_all)

/-- The code on the case of C12: a GET request without body stream (the retry predicate
accepts it), attempt cap 3, and acquiring a connection fails in the first exchange.
`DoCopy` makes that one exchange and no further one. -/
theorem DoCopy_single_exchange_on_acquire_error :
    isRequestRetryable pkg0 client0 (requestOf [71, 69, 84] false) = true ∧
    (requestOf [71, 69, 84] false).IsBodyStream = false ∧
    maxAttempts pkg0 client0 = 3 ∧
    ¬ ∃ res, DoCopy pkg0 client0 (fun _ => attemptNoConn) (sessionOf [71, 69, 84] false none)
        = some res ∧ 1 < res.calls := by
  refine ⟨by decide, by decide, by decide, ?_⟩
  rintro ⟨res, hres, hlt⟩
  have hev : (DoCopy pkg0 client0 (fun _ => attemptNoConn)
      (sessionOf [71, 69, 84] false none)).map (fun r => r.calls) = some 1 := by
    rfl
  rw [hres] at hev
  simp only [Option.map_some', Option.some.injEq] at hev
  omega

/-- C12, as the code has it. When acquiring a pooled connection fails in an exchange
(the scheme check having passed), the exchange returns that error with `retry = false` and
makes no call on any connection, and `DoCopy` makes no further exchange, whatever the
retry predicate, the body stream and the attempt cap; `DoCopy` returns that error,
`io.EOF` replaced by `ErrConnectionClosed`. -/
theorem DoCopy_acquire_failure (pkg : Pkg) (c : HostClient) (net : Nat → Attempt)
    (s : Session) :
    ∃ res, DoCopy pkg c net s = some res ∧
      ∀ (i : Nat) (o : Outcome Session) (e : Err), res.trace[i]? = some o →
        (net i).acquireErr = some e →
        c.IsTLS = decide (o.st.req.uri.scheme = strHTTPS) →
        o.retry = false ∧ o.err = some e ∧ o.events = [] ∧ i + 1 = res.calls ∧
        res.err = (if e = Err.EOF then some Err.ErrConnectionClosed else some e) := by
  obtain ⟨res, new, last, hres, ht, he, _, hgo, _, hch⟩ := DoCopy_spec pkg c net s
  have hcalls : res.calls = new.length + 1 := by simp [DoCopyResult.calls, ht]
  refine ⟨res, hres, ?_⟩
  intro i o e hio hacq hscheme
  rw [ht] at hio
  obtain ⟨s1, hs1⟩ := chained_getElem _ _ 0 _ i o hch hio
  rw [Nat.zero_add] at hs1
  obtain ⟨o1, resp, ho1, hr, herr, hevs, hreq, _⟩ := doCopy_req pkg c (net i) s1 o hs1
  obtain ⟨h1, h2, _, h4⟩ :=
    doNonNilReqRespCopy_acquire_failure pkg c (net i) _ o1 e ho1 hacq
  have hsch := doNonNilReqRespCopy_scheme pkg c (net i) _ o1 ho1
  rw [hreq, hsch] at hscheme
  have herr2 : o.err = some e := by rw [herr]; exact h4 hscheme
  have hretry : o.retry = false := by rw [hr]; exact h1
  rcases getElem?_snoc_cases new last i o hio with hin | ⟨hi, ho⟩
  · have hg := (hgo i o hin).2.1
    rw [hretry] at hg
    exact Bool.noConfusion hg
  · subst ho
    refine ⟨hretry, herr2, by rw [hevs]; exact h2, by omega, ?_⟩
    rw [he, herr2]
    by_cases hE : e = Err.EOF
    · simp [hE]
    · simp [hE]

theorem DoCopy_acquire_failure_witness :
    ∃ res, DoCopy pkg0 client0 (fun _ => attemptNoConn) (sessionOf [71, 69, 84] false none)
        = some res ∧ 0 + 1 = res.calls ∧ res.err = some (Err.other 2) := by
  obtain ⟨res, hres, h⟩ :=
    DoCopy_acquire_failure pkg0 client0 (fun _ => attemptNoConn)
      (sessionOf [71, 69, 84] false none)
  have hev : (DoCopy pkg0 client0 (fun _ => attemptNoConn)
      (sessionOf [71, 69, 84] false none)).map
      (fun r => r.trace.map (fun o => o.st.req.uri.scheme)) =
      some [[104, 116, 116, 112]] := by
    rfl
  rw [hres] at hev
  simp only [Option.map_some', Option.some.injEq] at hev
  cases hT : res.trace with
  | nil =>
    rw [hT] at hev
    simp at hev
  | cons o rest =>
    rw [hT] at hev
    simp only [List.map_cons, List.cons.injEq] at hev
    obtain ⟨h1, _⟩ := hev
    have := h 0 o (Err.other 2) (by rw [hT]; simp) rfl (by rw [h1]; decide)
    exact ⟨res, hres, this.2.2.2.1, by rw [this.2.2.2.2]; decide⟩

/-! ## Scheme mismatch -/

theorem doNonNilReqRespCopy_mismatch (pkg : Pkg) (c : HostClient) (a : Attempt) (s : Call)
    (hm : c.IsTLS ≠ decide (s.req.uri.scheme = strHTTPS)) :
    doNonNilReqRespCopy pkg c a s =
      some { retry := false, err := some Err.ErrHostClientRedirectToDifferentScheme,
             st := s, events := [] } := by
  unfold doNonNilReqRespCopy
  rw [if_pos hm]

theorem doCopy_mismatch (pkg : Pkg) (c : HostClient) (a : Attempt) (s : Session)
    (hm : c.IsTLS ≠ decide (s.req.uri.scheme = strHTTPS)) :
    doCopy pkg c a s =
      some { retry := false, err := some Err.ErrHostClientRedirectToDifferentScheme,
             st := s, events := [] } := by
  unfold doCopy
  simp only
  rw [doNonNilReqRespCopy_mismatch pkg c a _ hm]
  cases s with
  | mk req resp w pendingRequests =>
    cases resp <;> rfl

/-- C13. Scheme mismatch: for every request for which (URI scheme is `https`) differs
from the `IsTLS` of the client, `doNonNilReqRespCopy` returns
`(false, ErrHostClientRedirectToDifferentScheme)`, makes no call on any connection (no
acquire, close or release) and leaves request, response and sink as they were; and
`DoCopy` makes exactly one exchange and returns that error, the sink untouched. -/
theorem DoCopy_scheme_mismatch (pkg : Pkg) (c : HostClient) (a : Attempt) (call : Call)
    (net : Nat → Attempt) (s : Session)
    (hcall : c.IsTLS ≠ decide (call.req.uri.scheme = strHTTPS))
    (hs : c.IsTLS ≠ decide (s.req.uri.scheme = strHTTPS)) :
    doNonNilReqRespCopy pkg c a call =
      some { retry := false, err := some Err.ErrHostClientRedirectToDifferentScheme,
             st := call, events := [] } ∧
    ∃ res, DoCopy pkg c net s = some res ∧ res.calls = 1 ∧
      res.err = some Err.ErrHostClientRedirectToDifferentScheme ∧
      (∀ o ∈ res.trace, o.events = []) ∧ res.st.w = s.w := by
  refine ⟨doNonNilReqRespCopy_mismatch pkg c a call hcall, ?_⟩
  obtain ⟨res, new, last, hres, ht, he, hst, hgo, _, hch⟩ := DoCopy_spec pkg c net s
  have hfirst := doCopy_mismatch pkg c (net 0)
    { s with pendingRequests := s.pendingRequests + 1 } hs
  cases new with
  | cons o os =>
    have hg := (hgo 0 o (by simp)).2.1
    have ho : doCopy pkg c (net 0) { s with pendingRequests := s.pendingRequests + 1 }
        = some o := hch.1
    rw [hfirst] at ho
    have ho := Option.some.inj ho
    rw [← ho] at hg
    exact Bool.noConfusion hg
  | nil =>
    have hl : doCopy pkg c (net 0) { s with pendingRequests := s.pendingRequests + 1 }
        = some last := hch.1
    rw [hfirst] at hl
    have hl := Option.some.inj hl
    refine ⟨res, hres, by simp [DoCopyResult.calls, ht], ?_, ?_, ?_⟩
    · rw [he, ← hl]
      simp
    · intro o ho
      rw [ht] at ho
      simp only [List.nil_append, List.mem_singleton] at ho
      rw [ho, ← hl]
    · rw [hst, ← hl]

theorem DoCopy_scheme_mismatch_witness :
    doNonNilReqRespCopy pkg0 client0 (attemptBody 0 0 [])
        { req := requestHTTPS, resp := blankResponse, w := Writer.unbounded } =
      some { retry := false, err := some Err.ErrHostClientRedirectToDifferentScheme,
             st := { req := requestHTTPS, resp := blankResponse, w := Writer.unbounded },
             events := [] } ∧
    ∃ res, DoCopy pkg0 client0 (fun i => attemptBody i 0 []) (sessionFor requestHTTPS none)
        = some res ∧ res.calls = 1 ∧
      res.err = some Err.ErrHostClientRedirectToDifferentScheme ∧
      (∀ o ∈ res.trace, o.events = []) ∧
      res.st.w = (sessionFor requestHTTPS none).w :=
  DoCopy_scheme_mismatch pkg0 client0 (attemptBody 0 0 [])
    { req := requestHTTPS, resp := blankResponse, w := Writer.unbounded }
    (fun i => attemptBody i 0 []) (sessionFor requestHTTPS none) (by decide) (by decide)

/-! ## Ownership of the connection -/

theorem doNonNilReqRespCopy_disposal (pkg : Pkg) (c : HostClient) (a : Attempt) (s : Call)
    (o : Outcome Call) (h : doNonNilReqRespCopy pkg c a s = some o) :
    ((c.IsTLS = decide (s.req.uri.scheme = strHTTPS) ∧ a.acquireErr = none) →
      o.events.head? = some (Event.acquireConn a.conn) ∧
      ∃ d, o.events.getLast? = some d ∧ o.events.filter Event.isDisposal = [d] ∧
        (d = Event.closeConn a.conn ∨ d = Event.releaseConn a.conn) ∧
        (o.err ≠ none → d = Event.closeConn a.conn)) ∧
    (¬ (c.IsTLS = decide (s.req.uri.scheme = strHTTPS) ∧ a.acquireErr = none) →
      o.events = []) := by
  unfold doNonNilReqRespCopy at h
  simp only at h
  repeat' split at h
  all_goals first
    | exact absurd h Option.noConfusion
    | (simp only [Option.some.injEq] at h
       subst h
       simp_all [Event.isDisposal, List.filter])

/-- C14. Ownership of the connection in one exchange: `doNonNilReqRespCopy` returns, and
on every path on which `acquireConn` succeeded (the scheme check passed and the pool
handed out a connection) the first recorded call is that acquisition, the last recorded
call is a `closeConn` or a `releaseConn` on that connection, and it is the only such call
of the exchange; when the exchange returns an error, that call is `closeConn`. On the
other paths no call on a connection is made. -/
theorem doNonNilReqRespCopy_ownership (pkg : Pkg) (c : HostClient) (a : Attempt) (s : Call) :
    ∃ o, doNonNilReqRespCopy pkg c a s = some o ∧
      ((c.IsTLS = decide (s.req.uri.scheme = strHTTPS) ∧ a.acquireErr = none) →
        o.events.head? = some (Event.acquireConn a.conn) ∧
        ∃ d, o.events.getLast? = some d ∧ o.events.filter Event.isDisposal = [d] ∧
          (d = Event.closeConn a.conn ∨ d = Event.releaseConn a.conn) ∧
          (o.err ≠ none → d = Event.closeConn a.conn)) ∧
      (¬ (c.IsTLS = decide (s.req.uri.scheme = strHTTPS) ∧ a.acquireErr = none) →
        o.events = []) := by
  obtain ⟨o, ho⟩ := doNonNilReqRespCopy_total pkg c a s
  exact ⟨o, ho, doNonNilReqRespCopy_disposal pkg c a s o ho⟩

theorem doNonNilReqRespCopy_ownership_witness :
    ∃ o, doNonNilReqRespCopy pkg0 client0 (attemptBody 7 5 [104, 101, 108, 108, 111])
        { req := requestOf [71, 69, 84] false, resp := blankResponse, w := Writer.unbounded }
        = some o ∧
      o.events.head? = some (Event.acquireConn 7) ∧
      ∃ d, o.events.getLast? = some d ∧ o.events.filter Event.isDisposal = [d] ∧
        (d = Event.closeConn 7 ∨ d = Event.releaseConn 7) ∧
        (o.err ≠ none → d = Event.closeConn 7) := by
  obtain ⟨o, ho, h, _⟩ :=
    doNonNilReqRespCopy_ownership pkg0 client0 (attemptBody 7 5 [104, 101, 108, 108, 111])
      { req := requestOf [71, 69, 84] false, resp := blankResponse, w := Writer.unbounded }
  exact ⟨o, ho, h ⟨by decide, rfl⟩⟩

/-- The exchange of the case above records `acquireConn`, `doBodyCopy` and
`releaseConn`. -/
theorem doNonNilReqRespCopy_release :
    (doNonNilReqRespCopy pkg0 client0 (attemptBody 7 5 [104, 101, 108, 108, 111])
        { req := requestOf [71, 69, 84] false, resp := blankResponse,
          w := Writer.unbounded }).map (fun o => (o.retry, o.err, o.st.w.out, o.events)) =
      some (false, none, [104, 101, 108, 108, 111],
        [Event.acquireConn 7, Event.doBodyCopy true none, Event.releaseConn 7]) := by
  rfl

/-! ## Forced rotation of the connection -/

/-- C15. Forced connection rotation is a scoped mutation: `doNonNilReqRespCopy` returns,
and on every exit path the connection-close flag of the request equals its value before
the call; and when an exchange that forced closure (`MaxConnDuration > 0`, the connection
older than `MaxConnDuration`, the request not asking to close) succeeds, the last recorded
call is `closeConn` on the connection, and `releaseConn` is not called. -/
theorem doNonNilReqRespCopy_connection_close (pkg : Pkg) (c : HostClient) (a : Attempt)
    (s : Call) :
    ∃ o, doNonNilReqRespCopy pkg c a s = some o ∧
      o.st.req.ConnectionClose = s.req.ConnectionClose ∧
      (o.err = none → c.MaxConnDuration > 0 → a.age > c.MaxConnDuration →
        s.req.ConnectionClose = false →
        o.events.getLast? = some (Event.closeConn a.conn) ∧
        Event.releaseConn a.conn ∉ o.events) := by
  obtain ⟨o, ho⟩ := doNonNilReqRespCopy_total pkg c a s
  have hw := writeRequest_fields pkg c a (applyPathNormalizing c s.req)
  have hp := applyPathNormalizing_fields c s.req
  refine ⟨o, ho, ?_, ?_⟩
  · unfold Request.ConnectionClose
    rcases doNonNilReqRespCopy_req pkg c a s o ho with ⟨_, hr⟩ | ⟨_, _, hr⟩ | ⟨_, _, _, hr⟩
    · rw [hr]
    · rw [hr, hp.1]
    · rw [hr, hw.2.2.2.2.1, hp.1]
  · intro herr hmax hage hcc
    have hreset : resetConnection c a (applyPathNormalizing c s.req) = true := by
      unfold resetConnection Request.ConnectionClose
      rw [hp.1]
      unfold Request.ConnectionClose at hcc
      simp [hmax, hage, hcc]
    unfold doNonNilReqRespCopy at ho
    simp only at ho
    repeat' split at ho
    all_goals first
      | exact absurd ho Option.noConfusion
      | (simp only [Option.some.injEq] at ho
         subst ho
         simp_all)

theorem doNonNilReqRespCopy_connection_close_witness :
    ∃ o, doNonNilReqRespCopy pkg0 { client0 with MaxConnDuration := 10 }
        { attemptBody 7 5 [104, 101, 108, 108, 111] with age := 11 }
        { req := requestOf [71, 69, 84] false, resp := blankResponse, w := Writer.unbounded }
        = some o ∧
      o.st.req.ConnectionClose = (requestOf [71, 69, 84] false).ConnectionClose ∧
      o.events.getLast? = some (Event.closeConn 7) ∧ Event.releaseConn 7 ∉ o.events := by
  obtain ⟨o, ho, h1, h2⟩ :=
    doNonNilReqRespCopy_connection_close pkg0 { client0 with MaxConnDuration := 10 }
      { attemptBody 7 5 [104, 101, 108, 108, 111] with age := 11 }
      { req := requestOf [71, 69, 84] false, resp := blankResponse, w := Writer.unbounded }
  have hev : (doNonNilReqRespCopy pkg0 { client0 with MaxConnDuration := 10 }
      { attemptBody 7 5 [104, 101, 108, 108, 111] with age := 11 }
      { req := requestOf [71, 69, 84] false, resp := blankResponse,
        w := Writer.unbounded }).map (fun o => o.err) = some none := by
    rfl
  rw [ho] at hev
  have herr : o.err = none := Option.some.inj hev
  exact ⟨o, ho, h1, h2 herr (by decide) (by decide) rfl⟩

/-! ## Skipping the body -/

theorem prepareResponse_skip (c : HostClient) (custom : Bool) (req : Request)
    (resp : Response) (h : custom = true ∨ req.Header.IsHead = true) :
    (prepareResponse c custom req resp).SkipBody = true ∧
    (prepareResponse c custom req resp).bodyLength = resp.bodyLength := by
  unfold prepareResponse
  simp only [h, if_true]
  split <;> exact ⟨rfl, rfl⟩

theorem writeRequest_IsHead (pkg : Pkg) (c : HostClient) (a : Attempt) (req : Request) :
    (writeRequest pkg c a (applyPathNormalizing c req)).Header.IsHead = req.Header.IsHead := by
  unfold RequestHeader.IsHead
  rw [(writeRequest_fields pkg c a (applyPathNormalizing c req)).2.2.2.1,
    (applyPathNormalizing_fields c req).1]

/-- The method `doBodyCopy` on a response marked skip-body, when the header is read
successfully: `readBodyCopy` is not invoked, the sink is untouched, and a zero body-length
counter stays zero. -/
theorem doBodyCopy_skip (pkg : Pkg) (resp : Response) (a : Attempt) (m : Int) (w : Writer)
    (hKeep : ∀ r, (pkg.resetSkipHeader r).SkipBody = r.SkipBody ∧
      (r.bodyLength = 0 → (pkg.resetSkipHeader r).bodyLength = 0))
    (hMust : ∀ r, r.SkipBody = true → pkg.mustSkipBody r = true)
    (hskip : resp.SkipBody = true) (hlen : resp.bodyLength = 0)
    (hhdr : a.header.err = none ∧ (a.header.statusCode = StatusContinue → a.header2.err = none)) :
    ∃ b, resp.doBodyCopy pkg a m w = some b ∧ b.err = none ∧ b.w = w ∧ b.engine = false ∧
      b.resp.bodyLength = 0 := by
  have hs1 : (pkg.resetSkipHeader resp).SkipBody = true := by rw [(hKeep resp).1, hskip]
  have hl1 : (pkg.resetSkipHeader resp).bodyLength = 0 := (hKeep resp).2 hlen
  unfold Response.doBodyCopy
  simp only [hhdr.1, ne_eq, not_true_eq_false, if_false]
  by_cases hc : a.header.statusCode = StatusContinue
  · have h2 := hhdr.2 hc
    simp only [ResponseHeader.StatusCode, ResponseHeader.Read, hc, decide_True, if_true, h2,
      not_true_eq_false, and_false, if_false]
    rw [if_neg (by rw [hMust _ (by exact hs1)]; exact Bool.noConfusion)]
    exact ⟨_, rfl, rfl, rfl, rfl, hl1⟩
  · simp only [ResponseHeader.StatusCode, ResponseHeader.Read, hc, decide_False,
      Bool.false_eq_true, if_false, false_and]
    rw [if_neg (by rw [hMust _ (by exact hs1)]; exact Bool.noConfusion)]
    exact ⟨_, rfl, rfl, rfl, rfl, hl1⟩

/-- C16. Skip-body: for every exchange in which the request method is HEAD or the caller
passed a response with `SkipBody` set, and the headers are read successfully,
`doNonNilReqRespCopy` returns, the sink is as before the call, and where `doBodyCopy` is
reached it does not invoke `readBodyCopy` and returns nil, the exchange returns nil, and
`resp.BodyLength()` is 0. The helpers defined outside `http_io.go` enter with their
contracts: `Reset` blanks the body-length counter, `resetSkipHeader` keeps `SkipBody` and
a zero counter, and `mustSkipBody` holds when `SkipBody` is set. -/
theorem doNonNilReqRespCopy_skip_body (pkg : Pkg) (c : HostClient) (a : Attempt) (s : Call)
    (hReset : ∀ r, (pkg.Reset r).bodyLength = 0)
    (hKeep : ∀ r, (pkg.resetSkipHeader r).SkipBody = r.SkipBody ∧
      (r.bodyLength = 0 → (pkg.resetSkipHeader r).bodyLength = 0))
    (hMust : ∀ r, r.SkipBody = true → pkg.mustSkipBody r = true)
    (hskip : s.req.Header.IsHead = true ∨ s.resp.SkipBody = true)
    (hhdr : a.header.err = none ∧ (a.header.statusCode = StatusContinue → a.header2.err = none)) :
    ∃ o, doNonNilReqRespCopy pkg c a s = some o ∧ o.st.w = s.w ∧
      ∀ (engine : Bool) (err : Option Err), Event.doBodyCopy engine err ∈ o.events →
        engine = false ∧ err = none ∧ o.err = none ∧ o.st.resp.BodyLength = 0 := by
  have hprep := prepareResponse_skip c s.resp.SkipBody
    (writeRequest pkg c a (applyPathNormalizing c s.req))
    { pkg.Reset s.resp with SkipBody := s.resp.SkipBody }
    (by rw [writeRequest_IsHead]; tauto)
  obtain ⟨b, hb, e1, e2, e3, e4⟩ :=
    doBodyCopy_skip pkg _ a c.MaxResponseBodySize s.w hKeep hMust hprep.1
      (by rw [hprep.2]; exact hReset _) hhdr
  obtain ⟨o, ho⟩ := doNonNilReqRespCopy_total pkg c a s
  refine ⟨o, ho, ?_⟩
  unfold doNonNilReqRespCopy at ho
  simp only [hb] at ho
  repeat' split at ho
  all_goals first
    | exact absurd ho Option.noConfusion
    | (simp only [Option.some.injEq] at ho
       subst ho
       simp_all [Response.BodyLength])

theorem doNonNilReqRespCopy_skip_body_witness :
    ∃ o, doNonNilReqRespCopy pkg0 client0 (attemptBody 7 5 [104, 101, 108, 108, 111])
        { req := requestHead, resp := blankResponse, w := Writer.unbounded } = some o ∧
      o.st.w = Writer.unbounded ∧
      ∀ (engine : Bool) (err : Option Err), Event.doBodyCopy engine err ∈ o.events →
        engine = false ∧ err = none ∧ o.err = none ∧ o.st.resp.BodyLength = 0 :=
  doNonNilReqRespCopy_skip_body pkg0 client0 (attemptBody 7 5 [104, 101, 108, 108, 111])
    { req := requestHead, resp := blankResponse, w := Writer.unbounded }
    (fun _ => rfl) (fun _ => ⟨rfl, fun h => h⟩) (fun _ h => h) (Or.inl (by decide))
    ⟨rfl, fun _ => rfl⟩

/-- A HEAD exchange whose response announces five body bytes: `doBodyCopy` is reached,
`readBodyCopy` is not invoked, nothing is written, and the body length is 0. -/
theorem doNonNilReqRespCopy_head :
    (doNonNilReqRespCopy pkg0 client0 (attemptBody 7 5 [104, 101, 108, 108, 111])
        { req := requestHead, resp := blankResponse, w := Writer.unbounded }).map
      (fun o => (o.err, o.st.w.out, o.st.resp.BodyLength, o.events)) =
    some (none, [], 0,
      [Event.acquireConn 7, Event.doBodyCopy false none, Event.releaseConn 7]) := by
  rfl

/-! ## The byte count and a failing sink -/

/-- C17, the code at concrete inputs. A sink that accepts two bytes and then fails, fed
the fixed-length body `"hello"`: the sink has accepted `"he"`, and `copyFixedSize` returns
the count 0, which `doBodyCopy` stores, so that `BodyLength()` reports 0. In chunked mode,
for the body `"2\r\nhe\r\n3\r\nllo\r\n0\r\n\r\n"` and a sink that accepts three bytes,
the sink has accepted `"hel"` and the count is 2. -/
theorem copyFixedSize_partial_write_not_counted :
    (copyFixedSize (Reader.ofData [104, 101, 108, 108, 111] Err.EOF)
        { out := [], room := some 2, werr := Err.ErrBodyTooLarge } 5).map CopyResult.view =
      some (0, some Err.ErrBodyTooLarge, [104, 101], []) ∧
    (copyBodyChunked
        (Reader.ofData [50, 13, 10, 104, 101, 13, 10, 51, 13, 10, 108, 108, 111, 13, 10,
          48, 13, 10, 13, 10] Err.EOF)
        { out := [], room := some 3, werr := Err.ErrBodyTooLarge }).map CopyResult.view =
      some (2, some Err.ErrBodyTooLarge, [104, 101, 108], [13, 10, 48, 13, 10, 13, 10]) ∧
    (DoCopy pkg0 client0 (fun i => attemptBody i 5 [104, 101, 108, 108, 111])
        (sessionOf [71, 69, 84] false (some 2))).map
      (fun r => (r.st.resp.map Response.BodyLength, r.st.w.out)) =
      some (some 0, [104, 101]) := by
  refine ⟨by rfl, by rfl, by rfl⟩

theorem Writer.Write_cases (w : Writer) (p : List Byte) :
    (w.Write p).2.2.werr = w.werr ∧
    (((w.Write p).2.1 = none ∧ (w.Write p).1 = p.length ∧ (w.Write p).2.2.out = w.out ++ p ∧
        (w.room = none → (w.Write p).2.2.room = none)) ∨
      ((w.Write p).2.1 = some w.werr ∧ w.room ≠ none ∧
        ∃ lost, (w.Write p).2.2.out = w.out ++ lost)) := by
  unfold Writer.Write
  cases hr : w.room with
  | none => simp
  | some c =>
    by_cases hc : p.length ≤ c
    · simp [hc]
    · simp [hc]

/-- The count of `copyFixedSize` against what the sink accepted, for every source and
sink: the sink has accepted the counted bytes `acc` and, after them, the bytes `lost` that
a failing `Write` accepted before it failed; these are not counted. A sink without limit
loses nothing. -/
theorem copyFixedSizeLoop_count (fuel : Nat) :
    ∀ (r : Reader) (w : Writer) (n cnt : Int) (err : Option Err) (res : CopyResult),
      copyFixedSizeLoop fuel r w n cnt err = some res →
      res.w.werr = w.werr ∧ (w.room = none → res.w.room = none) ∧
      ∃ acc lost, res.w.out = w.out ++ acc ++ lost ∧ res.cnt = cnt + acc.length ∧
        (lost ≠ [] → res.err = some w.werr ∧ w.room ≠ none) := by
  induction fuel with
  | zero =>
    intro r w n cnt err res h
    simp [copyFixedSizeLoop] at h
  | succ fuel ih =>
    intro r w n cnt err res h
    by_cases hleft : n - cnt ≤ 0
    · rw [copyFixedSizeLoop_done _ _ _ _ _ _ hleft] at h
      have h := Option.some.inj h
      subst h
      exact ⟨rfl, fun h => h, [], [], by simp, by simp, fun h => absurd rfl h⟩
    · have hpos : 0 < n - cnt := not_le.mp hleft
      by_cases hd : r.data = []
      · rw [copyFixedSizeLoop_eof _ _ _ _ _ _ hpos hd] at h
        have h := Option.some.inj h
        subst h
        exact ⟨rfl, fun h => h, [], [], by simp, by simp, fun h => absurd rfl h⟩
      · rw [copyFixedSizeLoop] at h
        simp only [hleft, if_false] at h
        rw [Reader.Read_cons r _ hd] at h
        obtain ⟨hwerr, hcases⟩ := Writer.Write_cases w
          (r.data.take (r.grant (if n - cnt > 4096 then 4096 else n - cnt).toNat))
        generalize hW : w.Write
          (r.data.take (r.grant (if n - cnt > 4096 then 4096 else n - cnt).toNat)) = wr at h hwerr hcases
        obtain ⟨wn, werr, w1⟩ := wr
        simp only [ne_eq, not_true_eq_false, and_false, if_false] at h hwerr hcases
        rcases hcases with ⟨h1, h2, h3, h4⟩ | ⟨h1, h2, lost, h3⟩
        · subst h1
          simp only [not_true_eq_false, if_false] at h
          obtain ⟨i1, i2, acc, lost, i3, i4, i5⟩ := ih _ w1 n (cnt + wn) none res h
          refine ⟨by rw [i1, hwerr], fun hn => i2 (h4 hn),
            r.data.take (r.grant (if n - cnt > 4096 then 4096 else n - cnt).toNat) ++ acc,
            lost, ?_, ?_, ?_⟩
          · rw [i3, h3]
            simp
          · rw [i4, h2]
            simp
            omega
          · intro hl
            obtain ⟨j1, j2⟩ := i5 hl
            refine ⟨by rw [j1, hwerr], ?_⟩
            intro hn
            exact j2 (h4 hn)
        · subst h1
          simp only [ne_eq, not_false_eq_true, if_true, reduceCtorEq] at h
          have h := Option.some.inj h
          subst h
          exact ⟨hwerr, fun hn => absurd hn h2, [], lost, by simp [h3], by simp,
            fun _ => ⟨rfl, h2⟩⟩

theorem copyFixedSize_count (r : Reader) (w : Writer) (n : Int) (res : CopyResult)
    (h : copyFixedSize r w n = some res) :
    res.w.werr = w.werr ∧ (w.room = none → res.w.room = none) ∧
    ∃ acc lost, res.w.out = w.out ++ acc ++ lost ∧ res.cnt = acc.length ∧
      (lost ≠ [] → res.err = some w.werr ∧ w.room ≠ none) := by
  have := copyFixedSizeLoop_count r.budget r w n 0 none res h
  simpa using this

/-! ## A malformed size line -/

/-- A round of the loop of `copyBodyChunked` in which `parseChunkSize` fails: the function
returns the count so far and that error. -/
theorem copyBodyChunkedLoop_parse_error (fuel : Nat) (r r1 : Reader) (w : Writer) (nn n : Int)
    (buf : List Byte) (e : Err) (h : parseChunkSize r = (n, some e, r1)) :
    copyBodyChunkedLoop (fuel + 1) r w nn buf =
      some { cnt := nn, err := some e, r := r1, w := w } := by
  rw [copyBodyChunkedLoop]
  simp only [h]

/-- The code on the case of C18: on the source `"3\r\nfoo\r\nX\r\n"`, where
`parseChunkSize` rejects the size line `"X"`, `copyBodyChunked` does not end with the
payload delivered, the count 3 and the error "cannot find crlf at the end of chunk". -/
theorem copyBodyChunked_size_line_X_other_error :
    (parseChunkSize (Reader.ofData [88, 13, 10] Err.EOF)).2.1 ≠ none ∧
    ¬ ∃ res, copyBodyChunked
        (Reader.ofData [51, 13, 10, 102, 111, 111, 13, 10, 88, 13, 10] Err.EOF)
        Writer.unbounded = some res ∧
      res.w.out = [102, 111, 111] ∧ res.cnt = 3 ∧ res.err = some Err.ErrNoCRLF := by
  refine ⟨by decide, ?_⟩
  rintro ⟨res, hres, _, _, herr⟩
  have hev : (copyBodyChunked
      (Reader.ofData [51, 13, 10, 102, 111, 111, 13, 10, 88, 13, 10] Err.EOF)
      Writer.unbounded).map (fun c => c.err) = some (some Err.ErrChunkSize) := by
    rfl
  rw [hres] at hev
  simp only [Option.map_some', Option.some.injEq] at hev
  rw [herr] at hev
  exact absurd hev (by decide)

/-- C18, as the code has it. On the source `"3\r\nfoo\r\nX\r\n"`, where `parseChunkSize`
rejects the size line `"X"`, `copyBodyChunked` delivers the three payload bytes `"foo"` to
the sink, finds the CRLF after the payload, and returns the count 3 with the error of
`parseChunkSize`, which is not the error "cannot find crlf at the end of chunk"; the
source is left at the size line. -/
theorem copyBodyChunked_bad_size_line :
    (copyBodyChunked
        (Reader.ofData [51, 13, 10, 102, 111, 111, 13, 10, 88, 13, 10] Err.EOF)
        Writer.unbounded).map CopyResult.view =
      some (3, (parseChunkSize (Reader.ofData [88, 13, 10] Err.EOF)).2.1, [102, 111, 111],
        [88, 13, 10]) ∧
    (parseChunkSize (Reader.ofData [88, 13, 10] Err.EOF)).2.1 ≠ none ∧
    (parseChunkSize (Reader.ofData [88, 13, 10] Err.EOF)).2.1 ≠ some Err.ErrNoCRLF := by
  refine ⟨by rfl, by decide, by decide⟩

/-! ## What an exchange changes in the request -/

theorem applyPathNormalizing_eq (c : HostClient) (req : Request)
    (h : c.DisablePathNormalizing = false) : applyPathNormalizing c req = req := by
  unfold applyPathNormalizing
  simp [h]

/-- The code on the case of C19: a client with `DisablePathNormalizing` set and a request
without user agent. After the exchange the request is not what it was: its user agent is
the client name and the `DisablePathNormalizing` flag of its URI is set. The flag is set
also after an exchange that fails to acquire a connection and so returns at line 175,
before the request is written. -/
theorem doNonNilReqRespCopy_changes_request :
    requestNoUA.Header.userAgent = [] ∧ requestNoUA.uri.DisablePathNormalizing = false ∧
    (doNonNilReqRespCopy pkg0 { client0 with DisablePathNormalizing := true }
        (attemptBody 0 0 [])
        { req := requestNoUA, resp := blankResponse, w := Writer.unbounded }).map
      (fun o => (o.err, o.st.req.Header.userAgent, o.st.req.uri.DisablePathNormalizing)) =
      some (none, [99], true) ∧
    (doNonNilReqRespCopy pkg0 { client0 with DisablePathNormalizing := true }
        attemptNoConn
        { req := requestNoUA, resp := blankResponse, w := Writer.unbounded }).map
      (fun o => (o.err, o.events, o.st.req.Header.userAgent,
        o.st.req.uri.DisablePathNormalizing)) =
      some (some (Err.other 2), [], [], true) ∧
    ¬ ∃ o, doNonNilReqRespCopy pkg0 { client0 with DisablePathNormalizing := true }
        (attemptBody 0 0 [])
        { req := requestNoUA, resp := blankResponse, w := Writer.unbounded } = some o ∧
      o.st.req = requestNoUA := by
  refine ⟨rfl, rfl, by rfl, by rfl, ?_⟩
  rintro ⟨o, ho, hreq⟩
  have hev : (doNonNilReqRespCopy pkg0 { client0 with DisablePathNormalizing := true }
      (attemptBody 0 0 [])
      { req := requestNoUA, resp := blankResponse, w := Writer.unbounded }).map
      (fun o => o.st.req.Header.userAgent) = some [99] := by
    rfl
  rw [ho] at hev
  simp only [Option.map_some', Option.some.injEq] at hev
  rw [hreq] at hev
  exact absurd hev (by decide)

/-- C19, as the code has it. `doNonNilReqRespCopy` returns, and afterwards the method, the
connection-close flag and the timeout of the request equal their values before the call.
When the scheme check fails, and when the client has `DisablePathNormalizing` off and the
exchange returns before the request is written (acquiring the connection or setting the
write deadline failed), the whole request is as before. When the scheme check passes and
the client has `DisablePathNormalizing` set, the `DisablePathNormalizing` flag of the URI
is set afterwards: it is not put back. The user agent is the client name when it was empty
and the exchange got as far as writing the request (the scheme check passed, a connection
was acquired and setting the write deadline did not fail): it is not put back either; and
it is as before otherwise. Nothing is said of the body stream and of the URI where
`req.URI()` or `req.Write(bw)` has been called. -/
theorem doNonNilReqRespCopy_request_frame (pkg : Pkg) (c : HostClient) (a : Attempt)
    (s : Call) :
    ∃ o, doNonNilReqRespCopy pkg c a s = some o ∧
      o.st.req.Header.method = s.req.Header.method ∧
      o.st.req.Header.connectionClose = s.req.Header.connectionClose ∧
      o.st.req.timeout = s.req.timeout ∧
      (c.IsTLS ≠ decide (s.req.uri.scheme = strHTTPS) → o.st.req = s.req) ∧
      (c.DisablePathNormalizing = false →
        (a.acquireErr ≠ none ∨ (c.WriteTimeout > 0 ∧ a.writeDeadlineErr ≠ none)) →
        o.st.req = s.req) ∧
      (c.IsTLS = decide (s.req.uri.scheme = strHTTPS) → c.DisablePathNormalizing = true →
        o.st.req.uri.DisablePathNormalizing = true) ∧
      o.st.req.Header.userAgent =
        (if c.IsTLS = decide (s.req.uri.scheme = strHTTPS) ∧ a.acquireErr = none ∧
            ¬ (c.WriteTimeout > 0 ∧ a.writeDeadlineErr ≠ none) ∧
            s.req.Header.userAgent = [] then
          pkg.getClientName c
         else s.req.Header.userAgent) := by
  obtain ⟨o, ho⟩ := doNonNilReqRespCopy_total pkg c a s
  obtain ⟨w1, _, w3, w4, w5, w6⟩ := writeRequest_fields pkg c a (applyPathNormalizing c s.req)
  obtain ⟨p1, _, _, p4, p5⟩ := applyPathNormalizing_fields c s.req
  rw [p1] at w4 w5 w6
  refine ⟨o, ho, ?_⟩
  rcases doNonNilReqRespCopy_req pkg c a s o ho with
    ⟨hm, hr⟩ | ⟨hm, hfail, hr⟩ | ⟨hm, hacq, hwd, hr⟩
  · rw [hr]
    refine ⟨rfl, rfl, rfl, fun _ => rfl, fun _ _ => rfl, fun h => absurd h hm, ?_⟩
    have hcond : ¬ (c.IsTLS = decide (s.req.uri.scheme = strHTTPS) ∧ a.acquireErr = none ∧
        ¬ (c.WriteTimeout > 0 ∧ a.writeDeadlineErr ≠ none) ∧
        s.req.Header.userAgent = []) := fun h => hm h.1
    rw [if_neg hcond]
  · rw [hr]
    refine ⟨by rw [p1], by rw [p1], p4, fun h => absurd hm h,
      fun hc _ => applyPathNormalizing_eq c s.req hc, ?_, ?_⟩
    · intro _ hc
      rw [p5, hc]
      rfl
    · have hcond : ¬ (c.IsTLS = decide (s.req.uri.scheme = strHTTPS) ∧ a.acquireErr = none ∧
          ¬ (c.WriteTimeout > 0 ∧ a.writeDeadlineErr ≠ none) ∧
          s.req.Header.userAgent = []) := by
        rintro ⟨_, h1, h2, _⟩
        rcases hfail with h | h
        · exact h h1
        · exact h2 h
      rw [if_neg hcond, p1]
  · rw [hr]
    refine ⟨w4, w5, by rw [w3, p4], fun h => absurd hm h, ?_, ?_, ?_⟩
    · intro _ hfail
      rcases hfail with h | h
      · exact absurd hacq h
      · exact absurd h hwd
    · intro _ hc
      rw [w1, p5, hc]
      rfl
    · rw [w6]
      by_cases hu : s.req.Header.userAgent = []
      · have hcond : c.IsTLS = decide (s.req.uri.scheme = strHTTPS) ∧ a.acquireErr = none ∧
            ¬ (c.WriteTimeout > 0 ∧ a.writeDeadlineErr ≠ none) ∧
            s.req.Header.userAgent = [] := ⟨hm, hacq, hwd, hu⟩
        rw [if_pos hcond]
        simp [hu]
      · have hcond : ¬ (c.IsTLS = decide (s.req.uri.scheme = strHTTPS) ∧ a.acquireErr = none ∧
            ¬ (c.WriteTimeout > 0 ∧ a.writeDeadlineErr ≠ none) ∧
            s.req.Header.userAgent = []) := fun h => hu h.2.2.2
        rw [if_neg hcond]
        have : ¬ s.req.Header.userAgent.length = 0 := by
          rw [List.length_eq_zero]
          exact hu
        simp [this]

theorem doNonNilReqRespCopy_request_frame_witness :
    ∃ o, doNonNilReqRespCopy pkg0 { client0 with DisablePathNormalizing := true }
        (attemptBody 0 0 [])
        { req := requestNoUA, resp := blankResponse, w := Writer.unbounded } = some o ∧
      o.st.req.Header.method = requestNoUA.Header.method ∧
      o.st.req.uri.DisablePathNormalizing = true ∧
      o.st.req.Header.userAgent = [99] := by
  obtain ⟨o, ho, h1, _, _, _, _, h6, h7⟩ :=
    doNonNilReqRespCopy_request_frame pkg0 { client0 with DisablePathNormalizing := true }
      (attemptBody 0 0 [])
      { req := requestNoUA, resp := blankResponse, w := Writer.unbounded }
  refine ⟨o, ho, h1, h6 (by decide) rfl, ?_⟩
  rw [h7]
  decide

/-! ## Short reads at the chunk boundary -/

/-- C20, the code at concrete inputs. The well-formed body `"3\r\nfoo\r\n0\r\n\r\n"` read
in full gives the count 3 and no error. Read from a source whose first `Read` hands over
the three payload bytes and whose second `Read`, the boundary read into the two-byte
buffer, hands over one byte: `copyBodyChunked` compares CR and the zero still in the
buffer with CR LF and fails with "cannot find crlf at the end of chunk", with the LF left
unread. And on `"1\r\na\r\n0\r\n\rZZ"`, whose terminator is followed by CR Z and not by
CR LF, with a boundary read after the zero-size chunk that hands over one byte: the CR
and the LF left in the buffer by the boundary before compare equal to CR LF, and the
function returns the count 1 without error, having consumed one of the two bytes. -/
theorem copyBodyChunked_short_boundary_read :
    (copyBodyChunked
        (Reader.ofData [51, 13, 10, 102, 111, 111, 13, 10, 48, 13, 10, 13, 10] Err.EOF)
        Writer.unbounded).map CopyResult.view =
      some (3, none, [102, 111, 111], []) ∧
    (copyBodyChunked
        { data := [51, 13, 10, 102, 111, 111, 13, 10, 48, 13, 10, 13, 10], caps := [3, 1],
          fin := Err.EOF, asked := [] }
        Writer.unbounded).map (fun c => (c.view, c.r.asked)) =
      some ((3, some Err.ErrNoCRLF, [102, 111, 111], [10, 48, 13, 10, 13, 10]),
        [(3, 3), (2, 1)]) ∧
    (copyBodyChunked
        { data := [49, 13, 10, 97, 13, 10, 48, 13, 10, 13, 90, 90], caps := [1, 2, 1],
          fin := Err.EOF, asked := [] }
        Writer.unbounded).map (fun c => (c.view, c.r.asked)) =
      some ((1, none, [97], [90, 90]), [(1, 1), (2, 2), (2, 1)]) := by
  refine ⟨by rfl, by rfl, by rfl⟩

end Fasthttp
